import Mathlib

/-!
Verification of the OME-Files C++ OME-TIFF codec core against its
natural-language specification.  Each section shallowly embeds the part of
the C++ source (ome-files-cpp) needed by one or more claims and proves the
claimed properties about the embedding.
-/

set_option maxRecDepth 4096

namespace OmeFiles

/-! ## Dimension order and plane indexing

Modelled from the spec: the implementation of `ome::files::getIndex` and
`ome::files::getZCTCoords` (FormatTools.cpp) is not among the provided
source files; only their callers (`FormatWriter::getIndex`,
`OMETIFFReader::findTiffData`) and the FormatReader test expectations are.
The spec says: the plane index is defined by `dimensionOrder`; after the
X and Y axes, the remaining three axes Z, C, T follow the order of the
last three letters of the dimension order, fastest first, and
`planeIndex = innerStride0 * i0 + innerStride1 * i1 + innerStride2 * i2`;
`getZCTCoords` is the inverse, and both fail with `OutOfRange` when an
input exceeds the extents.  The model was checked against the concrete
index table in the FormatReader unit test (order XYZTC, Z=20, T=5,
effC=2, e.g. index (z=3, c=1, t=2) = 143, index (z=19, c=1, t=4) = 199).
-/

/-- The six valid dimension orders of the OME data model. -/
inductive DimensionOrder where
  | XYZCT
  | XYZTC
  | XYCTZ
  | XYCZT
  | XYTCZ
  | XYTZC
deriving DecidableEq, Repr

/-- Modelled from the spec: `ome::files::getIndex`.  Linearise a `(z, c, t)`
coordinate according to the dimension order, the fastest-varying axis
being the first letter after XY.  Returns `none` (OutOfRange) when a
coordinate exceeds its extent. -/
def getIndex (order : DimensionOrder) (sizeZ effSizeC sizeT : Nat)
    (z c t : Nat) : Option Nat :=
  if z < sizeZ ∧ c < effSizeC ∧ t < sizeT then
    some (match order with
    | .XYZCT => z + sizeZ * c + sizeZ * effSizeC * t
    | .XYZTC => z + sizeZ * t + sizeZ * sizeT * c
    | .XYCTZ => c + effSizeC * t + effSizeC * sizeT * z
    | .XYCZT => c + effSizeC * z + effSizeC * sizeZ * t
    | .XYTCZ => t + sizeT * c + sizeT * effSizeC * z
    | .XYTZC => t + sizeT * z + sizeT * sizeZ * c)
  else none

/-- Modelled from the spec: `ome::files::getZCTCoords`, the inverse of
`getIndex`.  Returns `none` (OutOfRange) when the index is not below the
image count `sizeZ * effSizeC * sizeT`. -/
def getZCTCoords (order : DimensionOrder) (sizeZ effSizeC sizeT : Nat)
    (index : Nat) : Option (Nat × Nat × Nat) :=
  if index < sizeZ * effSizeC * sizeT then
    some (match order with
    | .XYZCT => (index % sizeZ, index / sizeZ % effSizeC, index / sizeZ / effSizeC)
    | .XYZTC => (index % sizeZ, index / sizeZ / sizeT, index / sizeZ % sizeT)
    | .XYCTZ => (index / effSizeC / sizeT, index % effSizeC, index / effSizeC % sizeT)
    | .XYCZT => (index / effSizeC % sizeZ, index % effSizeC, index / effSizeC / sizeZ)
    | .XYTCZ => (index / sizeT / effSizeC, index / sizeT % effSizeC, index % sizeT)
    | .XYTZC => (index / sizeT % sizeZ, index / sizeT / sizeZ, index % sizeT))
  else none

/-- Mixed-radix encoding: the digit laws of `i0 + s0 * i1 + s0 * s1 * i2`. -/
theorem mixedRadix_encode (s0 s1 s2 i0 i1 i2 : Nat)
    (h0 : i0 < s0) (h1 : i1 < s1) (h2 : i2 < s2) :
    (i0 + s0 * i1 + s0 * s1 * i2) % s0 = i0 ∧
    (i0 + s0 * i1 + s0 * s1 * i2) / s0 % s1 = i1 ∧
    (i0 + s0 * i1 + s0 * s1 * i2) / s0 / s1 = i2 ∧
    i0 + s0 * i1 + s0 * s1 * i2 < s0 * (s1 * s2) := by
  have hs0 : 0 < s0 := lt_of_le_of_lt (Nat.zero_le _) h0
  have hs1 : 0 < s1 := lt_of_le_of_lt (Nat.zero_le _) h1
  have he : i0 + s0 * i1 + s0 * s1 * i2 = i0 + s0 * (i1 + s1 * i2) := by ring
  have hdiv : (i0 + s0 * (i1 + s1 * i2)) / s0 = i1 + s1 * i2 := by
    rw [Nat.add_mul_div_left _ _ hs0, Nat.div_eq_of_lt h0, Nat.zero_add]
  refine ⟨?_, ?_, ?_, ?_⟩
  · rw [he, Nat.add_mul_mod_self_left, Nat.mod_eq_of_lt h0]
  · rw [he, hdiv, Nat.add_mul_mod_self_left, Nat.mod_eq_of_lt h1]
  · rw [he, hdiv, Nat.add_mul_div_left _ _ hs1, Nat.div_eq_of_lt h1, Nat.zero_add]
  · rw [he]
    have hk : i1 + s1 * i2 + 1 ≤ s1 * s2 := by
      have hmul : s1 * (i2 + 1) ≤ s1 * s2 := Nat.mul_le_mul_left s1 (Nat.succ_le_of_lt h2)
      rw [Nat.mul_add, Nat.mul_one] at hmul
      omega
    calc i0 + s0 * (i1 + s1 * i2) < s0 + s0 * (i1 + s1 * i2) := by omega
    _ = s0 * (i1 + s1 * i2 + 1) := by ring
    _ ≤ s0 * (s1 * s2) := Nat.mul_le_mul_left _ hk

/-- Mixed-radix decoding: digits of `n` in radices `s0, s1, s2` are in range
and reassemble to `n`. -/
theorem mixedRadix_decode (s0 s1 s2 n : Nat) (h : n < s0 * (s1 * s2)) :
    n % s0 + s0 * (n / s0 % s1) + s0 * s1 * (n / s0 / s1) = n ∧
    n % s0 < s0 ∧ n / s0 % s1 < s1 ∧ n / s0 / s1 < s2 := by
  have hs0 : 0 < s0 := by
    rcases Nat.eq_zero_or_pos s0 with h0 | h0
    · subst h0; simp at h
    · exact h0
  have hs1 : 0 < s1 := by
    rcases Nat.eq_zero_or_pos s1 with h1 | h1
    · subst h1; simp at h
    · exact h1
  refine ⟨?_, Nat.mod_lt _ hs0, Nat.mod_lt _ hs1, ?_⟩
  · have h2 : s0 * (n / s0 % s1) + s0 * s1 * (n / s0 / s1)
        = s0 * (n / s0 % s1 + s1 * (n / s0 / s1)) := by ring
    rw [Nat.add_assoc, h2, Nat.mod_add_div, Nat.mod_add_div]
  · rw [Nat.div_div_eq_div_mul]
    rw [Nat.div_lt_iff_lt_mul (Nat.mul_pos hs0 hs1)]
    calc n < s0 * (s1 * s2) := h
    _ = s2 * (s0 * s1) := by ring

/-- C3: for every valid dimension order and sizes at least 1, `getZCTCoords`
inverts `getIndex` on every in-range `(z, c, t)`, and `getIndex` inverts
`getZCTCoords` on every plane index below `sizeZ * effSizeC * sizeT`. -/
theorem getIndex_getZCTCoords_roundtrip (order : DimensionOrder)
    (sizeZ effSizeC sizeT : Nat)
    (hZ : 1 ≤ sizeZ) (hC : 1 ≤ effSizeC) (hT : 1 ≤ sizeT) :
    (∀ z c t, z < sizeZ → c < effSizeC → t < sizeT →
        ∃ i, getIndex order sizeZ effSizeC sizeT z c t = some i ∧
          getZCTCoords order sizeZ effSizeC sizeT i = some (z, c, t)) ∧
    (∀ i, i < sizeZ * effSizeC * sizeT →
        ∃ z c t, getZCTCoords order sizeZ effSizeC sizeT i = some (z, c, t) ∧
          getIndex order sizeZ effSizeC sizeT z c t = some i) := by
  constructor
  · intro z c t hz hc ht
    cases order with
    | XYZCT =>
      obtain ⟨m0, m1, m2, mb⟩ := mixedRadix_encode sizeZ effSizeC sizeT z c t hz hc ht
      have hb : z + sizeZ * c + sizeZ * effSizeC * t < sizeZ * effSizeC * sizeT := by
        calc z + sizeZ * c + sizeZ * effSizeC * t < sizeZ * (effSizeC * sizeT) := mb
        _ = sizeZ * effSizeC * sizeT := by ring
      exact ⟨z + sizeZ * c + sizeZ * effSizeC * t, by simp [getIndex, hz, hc, ht],
        by simp [getZCTCoords, hb, m0, m1, m2]⟩
    | XYZTC =>
      obtain ⟨m0, m1, m2, mb⟩ := mixedRadix_encode sizeZ sizeT effSizeC z t c hz ht hc
      have hb : z + sizeZ * t + sizeZ * sizeT * c < sizeZ * effSizeC * sizeT := by
        calc z + sizeZ * t + sizeZ * sizeT * c < sizeZ * (sizeT * effSizeC) := mb
        _ = sizeZ * effSizeC * sizeT := by ring
      exact ⟨z + sizeZ * t + sizeZ * sizeT * c, by simp [getIndex, hz, hc, ht],
        by simp [getZCTCoords, hb, m0, m1, m2]⟩
    | XYCTZ =>
      obtain ⟨m0, m1, m2, mb⟩ := mixedRadix_encode effSizeC sizeT sizeZ c t z hc ht hz
      have hb : c + effSizeC * t + effSizeC * sizeT * z < sizeZ * effSizeC * sizeT := by
        calc c + effSizeC * t + effSizeC * sizeT * z < effSizeC * (sizeT * sizeZ) := mb
        _ = sizeZ * effSizeC * sizeT := by ring
      exact ⟨c + effSizeC * t + effSizeC * sizeT * z, by simp [getIndex, hz, hc, ht],
        by simp [getZCTCoords, hb, m0, m1, m2]⟩
    | XYCZT =>
      obtain ⟨m0, m1, m2, mb⟩ := mixedRadix_encode effSizeC sizeZ sizeT c z t hc hz ht
      have hb : c + effSizeC * z + effSizeC * sizeZ * t < sizeZ * effSizeC * sizeT := by
        calc c + effSizeC * z + effSizeC * sizeZ * t < effSizeC * (sizeZ * sizeT) := mb
        _ = sizeZ * effSizeC * sizeT := by ring
      exact ⟨c + effSizeC * z + effSizeC * sizeZ * t, by simp [getIndex, hz, hc, ht],
        by simp [getZCTCoords, hb, m0, m1, m2]⟩
    | XYTCZ =>
      obtain ⟨m0, m1, m2, mb⟩ := mixedRadix_encode sizeT effSizeC sizeZ t c z ht hc hz
      have hb : t + sizeT * c + sizeT * effSizeC * z < sizeZ * effSizeC * sizeT := by
        calc t + sizeT * c + sizeT * effSizeC * z < sizeT * (effSizeC * sizeZ) := mb
        _ = sizeZ * effSizeC * sizeT := by ring
      exact ⟨t + sizeT * c + sizeT * effSizeC * z, by simp [getIndex, hz, hc, ht],
        by simp [getZCTCoords, hb, m0, m1, m2]⟩
    | XYTZC =>
      obtain ⟨m0, m1, m2, mb⟩ := mixedRadix_encode sizeT sizeZ effSizeC t z c ht hz hc
      have hb : t + sizeT * z + sizeT * sizeZ * c < sizeZ * effSizeC * sizeT := by
        calc t + sizeT * z + sizeT * sizeZ * c < sizeT * (sizeZ * effSizeC) := mb
        _ = sizeZ * effSizeC * sizeT := by ring
      exact ⟨t + sizeT * z + sizeT * sizeZ * c, by simp [getIndex, hz, hc, ht],
        by simp [getZCTCoords, hb, m0, m1, m2]⟩
  · intro i hi
    cases order with
    | XYZCT =>
      have hi' : i < sizeZ * (effSizeC * sizeT) := by
        calc i < sizeZ * effSizeC * sizeT := hi
        _ = sizeZ * (effSizeC * sizeT) := by ring
      obtain ⟨e, b0, b1, b2⟩ := mixedRadix_decode sizeZ effSizeC sizeT i hi'
      exact ⟨i % sizeZ, i / sizeZ % effSizeC, i / sizeZ / effSizeC,
        by simp [getZCTCoords, hi], by simp [getIndex, b0, b1, b2, e]⟩
    | XYZTC =>
      have hi' : i < sizeZ * (sizeT * effSizeC) := by
        calc i < sizeZ * effSizeC * sizeT := hi
        _ = sizeZ * (sizeT * effSizeC) := by ring
      obtain ⟨e, b0, b1, b2⟩ := mixedRadix_decode sizeZ sizeT effSizeC i hi'
      exact ⟨i % sizeZ, i / sizeZ / sizeT, i / sizeZ % sizeT,
        by simp [getZCTCoords, hi], by simp [getIndex, b0, b1, b2, e]⟩
    | XYCTZ =>
      have hi' : i < effSizeC * (sizeT * sizeZ) := by
        calc i < sizeZ * effSizeC * sizeT := hi
        _ = effSizeC * (sizeT * sizeZ) := by ring
      obtain ⟨e, b0, b1, b2⟩ := mixedRadix_decode effSizeC sizeT sizeZ i hi'
      exact ⟨i / effSizeC / sizeT, i % effSizeC, i / effSizeC % sizeT,
        by simp [getZCTCoords, hi], by simp [getIndex, b0, b1, b2, e]⟩
    | XYCZT =>
      have hi' : i < effSizeC * (sizeZ * sizeT) := by
        calc i < sizeZ * effSizeC * sizeT := hi
        _ = effSizeC * (sizeZ * sizeT) := by ring
      obtain ⟨e, b0, b1, b2⟩ := mixedRadix_decode effSizeC sizeZ sizeT i hi'
      exact ⟨i / effSizeC % sizeZ, i % effSizeC, i / effSizeC / sizeZ,
        by simp [getZCTCoords, hi], by simp [getIndex, b0, b1, b2, e]⟩
    | XYTCZ =>
      have hi' : i < sizeT * (effSizeC * sizeZ) := by
        calc i < sizeZ * effSizeC * sizeT := hi
        _ = sizeT * (effSizeC * sizeZ) := by ring
      obtain ⟨e, b0, b1, b2⟩ := mixedRadix_decode sizeT effSizeC sizeZ i hi'
      exact ⟨i / sizeT / effSizeC, i / sizeT % effSizeC, i % sizeT,
        by simp [getZCTCoords, hi], by simp [getIndex, b0, b1, b2, e]⟩
    | XYTZC =>
      have hi' : i < sizeT * (sizeZ * effSizeC) := by
        calc i < sizeZ * effSizeC * sizeT := hi
        _ = sizeT * (sizeZ * effSizeC) := by ring
      obtain ⟨e, b0, b1, b2⟩ := mixedRadix_decode sizeT sizeZ effSizeC i hi'
      exact ⟨i / sizeT % sizeZ, i / sizeT / sizeZ, i % sizeT,
        by simp [getZCTCoords, hi], by simp [getIndex, b0, b1, b2, e]⟩

/-- C3 witness: the round trip evaluated for order XYZTC with
sizeZ = 20, effSizeC = 2, sizeT = 5 at (z, c, t) = (3, 1, 2) and at
plane index 143, matching the values in the FormatReader unit test. -/
theorem getIndex_getZCTCoords_roundtrip_witness :
    (∃ i, getIndex .XYZTC 20 2 5 3 1 2 = some i ∧
      getZCTCoords .XYZTC 20 2 5 i = some (3, 1, 2)) ∧
    (∃ z c t, getZCTCoords .XYZTC 20 2 5 143 = some (z, c, t) ∧
      getIndex .XYZTC 20 2 5 z c t = some 143) :=
  ⟨(getIndex_getZCTCoords_roundtrip .XYZTC 20 2 5 (by decide) (by decide)
      (by decide)).1 3 1 2 (by decide) (by decide) (by decide),
   (getIndex_getZCTCoords_roundtrip .XYZTC 20 2 5 (by decide) (by decide)
      (by decide)).2 143 (by decide)⟩

/-! ## Reader core metadata and `OMETIFFReader::fixDimensions` -/

/-- Core metadata of one series (full-resolution tier), restricted to the
fields `OMETIFFReader::fixDimensions` touches: `sizeZ`, `sizeT`, the
per-channel sample counts `sizeC` and `imageCount`. -/
structure CoreMetadata where
  sizeZ : Nat
  sizeT : Nat
  sizeC : List Nat
  imageCount : Nat
deriving DecidableEq, Repr

/-- Embedding of `OMETIFFReader::fixDimensions` (the body guarded by a
non-null `coreMeta`): when the product of the dimensions exceeds the image
count and no channel is multi-sample, force the dimensions that do not
match the image count to 1, defaulting to `sizeT = imageCount`. -/
def fixDimensions (m : CoreMetadata) : CoreMetadata :=
  let channelCount := m.sizeC.sum
  if m.sizeZ * m.sizeT * channelCount > m.imageCount ∧
      channelCount = m.sizeC.length then
    if m.sizeZ = m.imageCount then
      { m with sizeT := 1, sizeC := [1] }
    else if m.sizeT = m.imageCount then
      { m with sizeZ := 1, sizeC := [1] }
    else if channelCount = m.imageCount then
      { m with sizeZ := 1, sizeT := 1 }
    else
      { m with sizeZ := 1, sizeT := m.imageCount, sizeC := [1] }
  else m

/-- C6: `fixDimensions` rewrites exactly the dimensions the claim lists when
the guard `sizeZ * sizeT * sum(sizeC) > imageCount` holds with no
multi-sample channels, and leaves a series not satisfying the guard
unchanged. -/
theorem fixDimensions_spec (m : CoreMetadata) :
    (m.sizeZ * m.sizeT * m.sizeC.sum > m.imageCount →
      m.sizeC.sum = m.sizeC.length →
      (m.sizeZ = m.imageCount →
        fixDimensions m = { m with sizeT := 1, sizeC := [1] }) ∧
      (m.sizeZ ≠ m.imageCount → m.sizeT = m.imageCount →
        fixDimensions m = { m with sizeZ := 1, sizeC := [1] }) ∧
      (m.sizeZ ≠ m.imageCount → m.sizeT ≠ m.imageCount →
        m.sizeC.sum = m.imageCount →
        fixDimensions m = { m with sizeZ := 1, sizeT := 1 }) ∧
      (m.sizeZ ≠ m.imageCount → m.sizeT ≠ m.imageCount →
        m.sizeC.sum ≠ m.imageCount →
        fixDimensions m = { m with sizeZ := 1, sizeT := m.imageCount,
                                   sizeC := [1] })) ∧
    (¬(m.sizeZ * m.sizeT * m.sizeC.sum > m.imageCount ∧
        m.sizeC.sum = m.sizeC.length) →
      fixDimensions m = m) := by
  constructor
  · intro hgt hns
    have hg : m.sizeZ * m.sizeT * m.sizeC.sum > m.imageCount ∧
        m.sizeC.sum = m.sizeC.length := ⟨hgt, hns⟩
    refine ⟨?_, ?_, ?_, ?_⟩
    · intro hz
      simp only [fixDimensions]
      rw [if_pos hg, if_pos hz]
    · intro hz ht
      simp only [fixDimensions]
      rw [if_pos hg, if_neg hz, if_pos ht]
    · intro hz ht hc
      simp only [fixDimensions]
      rw [if_pos hg, if_neg hz, if_neg ht, if_pos hc]
    · intro hz ht hc
      simp only [fixDimensions]
      rw [if_pos hg, if_neg hz, if_neg ht, if_neg hc]
  · intro hguard
    simp only [fixDimensions]
    rw [if_neg hguard]

/-- C6 witness: a series with Z=2, T=3, C=[1], imageCount=1 takes the
channel branch (Z and T forced to 1), and a series whose dimension product
matches its image count is unchanged. -/
theorem fixDimensions_spec_witness :
    fixDimensions ⟨2, 3, [1], 1⟩ = ⟨1, 1, [1], 1⟩ ∧
    fixDimensions ⟨3, 1, [1], 3⟩ = ⟨3, 1, [1], 3⟩ :=
  ⟨((fixDimensions_spec ⟨2, 3, [1], 1⟩).1 (by decide) (by decide)).2.2.1
      (by decide) (by decide) (by decide),
   (fixDimensions_spec ⟨3, 1, [1], 3⟩).2 (by decide)⟩

/-! ## Writer dimension accessors (`FormatWriter::getSize{X,Y,Z,T,C}`) -/

/-- One resolution tier `(sizeX, sizeY, sizeZ)` of one series, as stored in
`FormatWriter::resolutionLevels`. -/
structure Resolution where
  x : Nat
  y : Nat
  z : Nat
deriving DecidableEq, Repr

/-- The slice of the `MetadataRetrieve` interface consumed by the
`FormatWriter` accessors, one list entry per image (series). -/
structure MetadataRetrieveModel where
  pixelsSizeX : List Nat
  pixelsSizeT : List Nat
  pixelsSizeC : List Nat
deriving Repr

/-- The `FormatWriter` state consulted by the dimension accessors. -/
structure FormatWriterState where
  resolutionLevels : List (List Resolution)
  series : Nat
  resolution : Nat
  metadataRetrieve : MetadataRetrieveModel
deriving Repr

/-- Embedding of `FormatWriter::getSizeX`: the current resolution level's X
extent, substituting 1 for 0; `none` models the `std::out_of_range` thrown
by `.at()`. -/
def getSizeX (st : FormatWriterState) : Option Nat :=
  match st.resolutionLevels[st.series]? with
  | none => none
  | some levels =>
    match levels[st.resolution]? with
    | none => none
    | some r => some (if r.x = 0 then 1 else r.x)

/-- Embedding of `FormatWriter::getSizeY`. -/
def getSizeY (st : FormatWriterState) : Option Nat :=
  match st.resolutionLevels[st.series]? with
  | none => none
  | some levels =>
    match levels[st.resolution]? with
    | none => none
    | some r => some (if r.y = 0 then 1 else r.y)

/-- Embedding of `FormatWriter::getSizeZ`. -/
def getSizeZ (st : FormatWriterState) : Option Nat :=
  match st.resolutionLevels[st.series]? with
  | none => none
  | some levels =>
    match levels[st.resolution]? with
    | none => none
    | some r => some (if r.z = 0 then 1 else r.z)

/-- Embedding of `FormatWriter::getSizeT`: the metadata store's SizeT for
the current series, substituting 1 for 0. -/
def getSizeT (st : FormatWriterState) : Option Nat :=
  match st.metadataRetrieve.pixelsSizeT[st.series]? with
  | none => none
  | some v => some (if v = 0 then 1 else v)

/-- Embedding of `FormatWriter::getSizeC`. -/
def getSizeC (st : FormatWriterState) : Option Nat :=
  match st.metadataRetrieve.pixelsSizeC[st.series]? with
  | none => none
  | some v => some (if v = 0 then 1 else v)

/-- C10: none of the five dimension accessors can return 0, and a recorded
extent of 0 is reported as 1. -/
theorem getSize_accessors_never_zero (st : FormatWriterState) :
    (∀ v, getSizeX st = some v → 0 < v) ∧
    (∀ v, getSizeY st = some v → 0 < v) ∧
    (∀ v, getSizeZ st = some v → 0 < v) ∧
    (∀ v, getSizeT st = some v → 0 < v) ∧
    (∀ v, getSizeC st = some v → 0 < v) ∧
    (∀ levels r, st.resolutionLevels[st.series]? = some levels →
      levels[st.resolution]? = some r →
      (r.x = 0 → getSizeX st = some 1) ∧
      (r.y = 0 → getSizeY st = some 1) ∧
      (r.z = 0 → getSizeZ st = some 1)) ∧
    (st.metadataRetrieve.pixelsSizeT[st.series]? = some 0 →
      getSizeT st = some 1) ∧
    (st.metadataRetrieve.pixelsSizeC[st.series]? = some 0 →
      getSizeC st = some 1) := by
  refine ⟨?_, ?_, ?_, ?_, ?_, ?_, ?_, ?_⟩
  · intro v h
    rcases h1 : st.resolutionLevels[st.series]? with _ | levels <;>
      simp [getSizeX, h1] at h
    rcases h2 : levels[st.resolution]? with _ | r <;> simp [h2] at h
    split at h <;> omega
  · intro v h
    rcases h1 : st.resolutionLevels[st.series]? with _ | levels <;>
      simp [getSizeY, h1] at h
    rcases h2 : levels[st.resolution]? with _ | r <;> simp [h2] at h
    split at h <;> omega
  · intro v h
    rcases h1 : st.resolutionLevels[st.series]? with _ | levels <;>
      simp [getSizeZ, h1] at h
    rcases h2 : levels[st.resolution]? with _ | r <;> simp [h2] at h
    split at h <;> omega
  · intro v h
    rcases h1 : st.metadataRetrieve.pixelsSizeT[st.series]? with _ | w <;>
      simp [getSizeT, h1] at h
    split at h <;> omega
  · intro v h
    rcases h1 : st.metadataRetrieve.pixelsSizeC[st.series]? with _ | w <;>
      simp [getSizeC, h1] at h
    split at h <;> omega
  · intro levels r h1 h2
    exact ⟨fun hx => by simp [getSizeX, h1, h2, hx],
           fun hy => by simp [getSizeY, h1, h2, hy],
           fun hz => by simp [getSizeZ, h1, h2, hz]⟩
  · intro h1; simp [getSizeT, h1]
  · intro h1; simp [getSizeC, h1]

/-- C10 witness: a state recording an extent of 0 everywhere reports 1
from every accessor. -/
theorem getSize_accessors_never_zero_witness :
    getSizeX ⟨[[⟨0, 0, 0⟩]], 0, 0, ⟨[0], [0], [0]⟩⟩ = some 1 ∧
    getSizeT ⟨[[⟨0, 0, 0⟩]], 0, 0, ⟨[0], [0], [0]⟩⟩ = some 1 :=
  ⟨((getSize_accessors_never_zero
        ⟨[[⟨0, 0, 0⟩]], 0, 0, ⟨[0], [0], [0]⟩⟩).2.2.2.2.2.1
      [⟨0, 0, 0⟩] ⟨0, 0, 0⟩ rfl rfl).1 rfl,
   (getSize_accessors_never_zero
        ⟨[[⟨0, 0, 0⟩]], 0, 0, ⟨[0], [0], [0]⟩⟩).2.2.2.2.2.2.1 rfl⟩

/-! ## Writer cursor (`FormatWriter::setSeries` / `FormatWriter::setPlane`) -/

/-- The writer's `(series, resolution, plane)` cursor. -/
structure WriterCursor where
  series : Nat
  resolution : Nat
  plane : Nat
deriving DecidableEq, Repr

/-- Embedding of `FormatWriter::setSeries`: reject an out-of-bounds series,
reject an out-of-order series, otherwise set the series and reset
resolution and plane to 0.  The out-of-order test is the source's
`currentSeries != series && (series > 0 && currentSeries != series - 1)`. -/
def setSeries (seriesCount : Nat) (st : WriterCursor) (series : Nat) :
    Except String WriterCursor :=
  if series ≥ seriesCount then
    .error "Invalid series"
  else if st.series ≠ series ∧ (series > 0 ∧ st.series ≠ series - 1) then
    .error "Series set out of order"
  else
    .ok { series := series, resolution := 0, plane := 0 }

/-- Embedding of `FormatWriter::setPlane`: reject an out-of-bounds plane,
reject an out-of-order plane, otherwise set the plane. -/
def setPlane (imageCount : Nat) (st : WriterCursor) (plane : Nat) :
    Except String WriterCursor :=
  if plane ≥ imageCount then
    .error "Invalid plane"
  else if st.plane ≠ plane ∧ (plane > 0 ∧ st.plane ≠ plane - 1) then
    .error "Plane set out of order"
  else
    .ok { st with plane := plane }

/-- C4 counterexample: with 3 declared series and the cursor at series 2,
`setSeries 0` is accepted by the code (and resets the cursor), although
0 is neither the current series nor its successor; likewise `setPlane 0`
from plane 2.  The claim that every non-monotonic access fails is
therefore false. -/
theorem setSeries_counterexample :
    setSeries 3 ⟨2, 0, 0⟩ 0 = .ok ⟨0, 0, 0⟩ ∧
    (0 : Nat) ≠ 2 ∧ (0 : Nat) ≠ 2 + 1 ∧
    setPlane 4 ⟨0, 0, 2⟩ 0 = .ok ⟨0, 0, 0⟩ ∧
    setSeries 3 ⟨0, 0, 0⟩ 2 = .error "Series set out of order" :=
  ⟨rfl, by decide, by decide, rfl, rfl⟩

/-- C4 (amended): `setSeries s` with `s < seriesCount` succeeds exactly when
`s` is the current series, its successor, or 0, resetting resolution and
plane; any other target fails with the out-of-order error and, the state
being passed by value, the cursor is unchanged on failure.  `s ≥
seriesCount` fails with the invalid-series error.  `setPlane` behaves the
same way on the plane cursor. -/
theorem setSeries_setPlane_monotonic (seriesCount imageCount : Nat)
    (st : WriterCursor) (s p : Nat) :
    (s < seriesCount →
      ((s = st.series ∨ s = st.series + 1 ∨ s = 0) →
        setSeries seriesCount st s = .ok ⟨s, 0, 0⟩) ∧
      (s ≠ st.series → s ≠ st.series + 1 → s ≠ 0 →
        setSeries seriesCount st s = .error "Series set out of order")) ∧
    (seriesCount ≤ s → setSeries seriesCount st s = .error "Invalid series") ∧
    (p < imageCount →
      ((p = st.plane ∨ p = st.plane + 1 ∨ p = 0) →
        setPlane imageCount st p = .ok { st with plane := p }) ∧
      (p ≠ st.plane → p ≠ st.plane + 1 → p ≠ 0 →
        setPlane imageCount st p = .error "Plane set out of order")) ∧
    (imageCount ≤ p → setPlane imageCount st p = .error "Invalid plane") := by
  refine ⟨?_, ?_, ?_, ?_⟩
  · intro hs
    constructor
    · intro hok
      have hnb : ¬(s ≥ seriesCount) := by omega
      have hno : ¬(st.series ≠ s ∧ (s > 0 ∧ st.series ≠ s - 1)) := by omega
      simp only [setSeries]
      rw [if_neg hnb, if_neg hno]
    · intro h1 h2 h3
      have hnb : ¬(s ≥ seriesCount) := by omega
      have ho : st.series ≠ s ∧ (s > 0 ∧ st.series ≠ s - 1) := by omega
      simp only [setSeries]
      rw [if_neg hnb, if_pos ho]
  · intro hs
    simp only [setSeries]
    rw [if_pos hs]
  · intro hp
    constructor
    · intro hok
      have hnb : ¬(p ≥ imageCount) := by omega
      have hno : ¬(st.plane ≠ p ∧ (p > 0 ∧ st.plane ≠ p - 1)) := by omega
      simp only [setPlane]
      rw [if_neg hnb, if_neg hno]
    · intro h1 h2 h3
      have hnb : ¬(p ≥ imageCount) := by omega
      have ho : st.plane ≠ p ∧ (p > 0 ∧ st.plane ≠ p - 1) := by omega
      simp only [setPlane]
      rw [if_neg hnb, if_pos ho]
  · intro hp
    simp only [setPlane]
    rw [if_pos hp]

/-- C4 amended-claim witness: advancing from series 1 to 2 of 3 succeeds,
skipping from plane 0 to 2 of 4 fails. -/
theorem setSeries_setPlane_monotonic_witness :
    setSeries 3 ⟨1, 0, 5⟩ 2 = .ok ⟨2, 0, 0⟩ ∧
    setPlane 4 ⟨0, 0, 0⟩ 2 = .error "Plane set out of order" :=
  ⟨((setSeries_setPlane_monotonic 3 4 ⟨1, 0, 5⟩ 2 2).1 (by decide)).1
      (Or.inr (Or.inl rfl)),
   ((setSeries_setPlane_monotonic 3 4 ⟨1, 0, 5⟩ 2 2).2.2.1 (by decide)).2
      (by decide) (by decide) (by decide)⟩

/-! ## Writer close / `OMETIFFWriter::fillMetadata` plane completeness -/

/-- Status of one plane of one series during writing, from
`detail::OMETIFFPlane`. -/
inductive PlaneStatus where
  | absent
  | present
  | unknown
deriving DecidableEq, Repr

/-- Per-series writer state: the status of each declared plane
(`OMETIFFWriter::SeriesState`). -/
structure SeriesState where
  planes : List PlaneStatus
deriving DecidableEq, Repr

/-- The count of planes whose status is not `PRESENT`, as accumulated by
the loop at the top of `OMETIFFWriter::fillMetadata`. -/
def badPlanes (seriesState : List SeriesState) : Nat :=
  (seriesState.map
    (fun s => (s.planes.filter (fun p => p ≠ PlaneStatus.present)).length)).sum

/-- Embedding of the incomplete-plane check of `OMETIFFWriter::fillMetadata`
run by `close()`: fail, reporting the count, when any plane was not
written.  The `TiffData` regeneration that follows in the source is not
modelled here. -/
def fillMetadata (seriesState : List SeriesState) : Except Nat Unit :=
  if badPlanes seriesState ≠ 0 then .error (badPlanes seriesState)
  else .ok ()

/-- C2: under the writer invariant that every plane is either `ABSENT` or
`PRESENT`, `close()`'s `fillMetadata` check fails with the count of
unwritten planes whenever some plane is `ABSENT`, and succeeds when every
declared plane is `PRESENT`. -/
theorem fillMetadata_incomplete_planes (seriesState : List SeriesState)
    (hvals : ∀ s ∈ seriesState, ∀ p ∈ s.planes,
      p = PlaneStatus.absent ∨ p = PlaneStatus.present) :
    ((∃ s ∈ seriesState, PlaneStatus.absent ∈ s.planes) →
      fillMetadata seriesState = .error (badPlanes seriesState) ∧
      0 < badPlanes seriesState ∧
      badPlanes seriesState = (seriesState.map
        (fun s =>
          (s.planes.filter (fun p => p = PlaneStatus.absent)).length)).sum) ∧
    ((∀ s ∈ seriesState, ∀ p ∈ s.planes, p = PlaneStatus.present) →
      fillMetadata seriesState = .ok ()) := by
  constructor
  · rintro ⟨s, hsmem, habs⟩
    have hpos : 0 < badPlanes seriesState := by
      have hlen :
          0 < (s.planes.filter (fun p => p ≠ PlaneStatus.present)).length := by
        rw [List.length_pos]
        intro hnil
        have := List.filter_eq_nil_iff.mp hnil PlaneStatus.absent habs
        simp at this
      have hmem :
          (s.planes.filter (fun p => p ≠ PlaneStatus.present)).length ∈
            (seriesState.map (fun s =>
              (s.planes.filter (fun p => p ≠ PlaneStatus.present)).length)) :=
        List.mem_map_of_mem _ hsmem
      exact lt_of_lt_of_le hlen
        (List.single_le_sum (fun _ _ => Nat.zero_le _) _ hmem)
    refine ⟨?_, hpos, ?_⟩
    · simp only [fillMetadata]
      rw [if_pos (Nat.pos_iff_ne_zero.mp hpos)]
    · unfold badPlanes
      congr 1
      apply List.map_congr_left
      intro t htmem
      congr 1
      apply List.filter_congr
      intro p hpmem
      rcases hvals t htmem p hpmem with h | h <;> subst h <;> decide
  · intro hall
    have hzero : badPlanes seriesState = 0 := by
      unfold badPlanes
      apply List.sum_eq_zero
      intro n hn
      rcases List.mem_map.mp hn with ⟨t, htmem, rfl⟩
      simp only [List.length_eq_zero]
      rw [List.filter_eq_nil_iff]
      intro p hpmem
      have := hall t htmem p hpmem
      subst this
      decide
    simp [fillMetadata, hzero]

/-- C2 witness: a writer with one absent plane fails reporting 1; a writer
with both planes written closes cleanly. -/
theorem fillMetadata_incomplete_planes_witness :
    fillMetadata [⟨[PlaneStatus.present, PlaneStatus.absent]⟩]
      = .error (badPlanes [⟨[PlaneStatus.present, PlaneStatus.absent]⟩]) ∧
    fillMetadata [⟨[PlaneStatus.present, PlaneStatus.present]⟩] = .ok () :=
  ⟨((fillMetadata_incomplete_planes
      [⟨[PlaneStatus.present, PlaneStatus.absent]⟩] (by decide)).1
      ⟨⟨[PlaneStatus.present, PlaneStatus.absent]⟩, by decide, by decide⟩).1,
   (fillMetadata_incomplete_planes
      [⟨[PlaneStatus.present, PlaneStatus.present]⟩] (by decide)).2
      (by decide)⟩

/-! ## Reader `TiffData` handling
(`OMETIFFReader::seriesIndexStart` / `getTiffDataValues` / `findTiffData`) -/

/-- The attributes of one `TiffData` element as exposed by the metadata
store; `none` models a getter that throws because the attribute is unset. -/
structure TiffData where
  firstZ : Option Nat
  firstT : Option Nat
  firstC : Option Nat
  tdIFD : Option Nat
  planeCount : Option Nat
deriving DecidableEq, Repr

/-- Recursive worker for `seriesIndexStart`, accumulating the three optional
minima in document order.  Note that the source's Z branch calls
`meta.getTiffDataFirstC(series, td)`, not `getTiffDataFirstZ`, so the Z
minimum is in fact accumulated from the `FirstC` attributes; the embedding
reproduces this. -/
def seriesIndexStartGo (zIndexStart tIndexStart cIndexStart : Option Nat) :
    List TiffData → Option Nat × Option Nat × Option Nat
  | [] => (zIndexStart, tIndexStart, cIndexStart)
  | td :: rest =>
    let firstC := td.firstC.getD 0
    let cNext := match cIndexStart with
      | none => some firstC
      | some v => some (min v firstC)
    let firstZ := td.firstC.getD 0
    let zNext := match zIndexStart with
      | none => some firstZ
      | some v => some (min v firstZ)
    let firstT := td.firstT.getD 0
    let tNext := match tIndexStart with
      | none => some firstT
      | some v => some (min v firstT)
    seriesIndexStartGo zNext tNext cNext rest

/-- Embedding of `OMETIFFReader::seriesIndexStart`: pre-scan the series'
`TiffData` elements for the minimum `FirstZ` / `FirstT` / `FirstC`
(a getter that throws contributes 0).  Returns
`(zIndexStart, tIndexStart, cIndexStart)`. -/
def seriesIndexStart (tds : List TiffData) :
    Option Nat × Option Nat × Option Nat :=
  seriesIndexStartGo none none none tds

/-- Modelled from the spec: the intended pre-scan, with the Z minimum taken
from the `FirstZ` attributes ("find per-series minimum FirstZ/FirstT/FirstC
across all TiffData", a missing attribute counting as 0). -/
def seriesIndexStartIntendedGo
    (zIndexStart tIndexStart cIndexStart : Option Nat) :
    List TiffData → Option Nat × Option Nat × Option Nat
  | [] => (zIndexStart, tIndexStart, cIndexStart)
  | td :: rest =>
    let firstC := td.firstC.getD 0
    let cNext := match cIndexStart with
      | none => some firstC
      | some v => some (min v firstC)
    let firstZ := td.firstZ.getD 0
    let zNext := match zIndexStart with
      | none => some firstZ
      | some v => some (min v firstZ)
    let firstT := td.firstT.getD 0
    let tNext := match tIndexStart with
      | none => some firstT
      | some v => some (min v firstT)
    seriesIndexStartIntendedGo zNext tNext cNext rest

/-- Modelled from the spec: intended `seriesIndexStart`. -/
def seriesIndexStartIntended (tds : List TiffData) :
    Option Nat × Option Nat × Option Nat :=
  seriesIndexStartIntendedGo none none none tds

/-- Embedding of the base subtraction applied by `OMETIFFReader::findTiffData`
to each of `FirstZ` / `FirstT` / `FirstC` before computing the plane index:
`if (start && first >= *start) first -= *start`. -/
def subtractIndexStart (start : Option Nat) (first : Nat) : Nat :=
  match start with
  | none => first
  | some s => if first ≥ s then first - s else first

/-- Worker lemma: when the Z and C accumulators coincide, the scan keeps
them equal, because the source reads `FirstC` in both branches. -/
theorem seriesIndexStartGo_z_eq_c (tds : List TiffData) :
    ∀ z t c, z = c →
      (seriesIndexStartGo z t c tds).1 = (seriesIndexStartGo z t c tds).2.2 := by
  induction tds with
  | nil => intro z t c h; simpa [seriesIndexStartGo] using h
  | cons td rest ih =>
    intro z t c h
    subst h
    simp only [seriesIndexStartGo]
    exact ih _ _ _ rfl

/-- C5: the code's `zIndexStart` is accumulated from the `FirstC` attributes
(it always equals `cIndexStart`), not from `FirstZ` as the claim states;
on a series whose only `TiffData` has `FirstZ = 1` and `FirstC = 0` the
code detects a Z base of 0, so `findTiffData` leaves the 1-based `FirstZ`
unsubtracted, while the intended scan detects base 1 and subtracts it. -/
theorem seriesIndexStart_firstZ_from_firstC (tds : List TiffData) :
    (seriesIndexStart tds).1 = (seriesIndexStart tds).2.2 ∧
    seriesIndexStart [⟨some 1, some 0, some 0, some 0, some 1⟩]
      = (some 0, some 0, some 0) ∧
    seriesIndexStartIntended [⟨some 1, some 0, some 0, some 0, some 1⟩]
      = (some 1, some 0, some 0) ∧
    subtractIndexStart
      (seriesIndexStart [⟨some 1, some 0, some 0, some 0, some 1⟩]).1 1 = 1 ∧
    subtractIndexStart
      (seriesIndexStartIntended
        [⟨some 1, some 0, some 0, some 0, some 1⟩]).1 1 = 0 :=
  ⟨seriesIndexStartGo_z_eq_c tds none none none rfl,
   rfl, rfl, rfl, rfl⟩

/-- C5 witness: the general Z-equals-C component evaluated on a concrete
scan where `FirstZ` and `FirstC` differ. -/
theorem seriesIndexStart_firstZ_from_firstC_witness :
    (seriesIndexStart [⟨some 3, some 0, some 2, none, none⟩]).1
      = (seriesIndexStart [⟨some 3, some 0, some 2, none, none⟩]).2.2 :=
  (seriesIndexStart_firstZ_from_firstC
    [⟨some 3, some 0, some 2, none, none⟩]).1

/-- The outputs of `OMETIFFReader::getTiffDataValues`: the defaulted IFD
index, the plane count, whether the series survived (the source nulls the
series' core metadata entry and returns `false` otherwise), and the
defaulted `FirstZ` / `FirstT` / `FirstC`. -/
structure TiffDataValues where
  tdIFD : Option Nat
  numPlanes : Nat
  valid : Bool
  firstZ : Nat
  firstT : Nat
  firstC : Nat
deriving DecidableEq, Repr

/-- Embedding of `OMETIFFReader::getTiffDataValues`: a missing plane count
defaults to 1 when an `IFD` attribute is present and to 0 otherwise; a
plane count of 0 invalidates the series; a missing `IFD` defaults to 0;
missing `FirstZ` / `FirstT` / `FirstC` default to 0. -/
def getTiffDataValues (td : TiffData) : TiffDataValues :=
  let tdIFD := td.tdIFD
  let numPlanes := match td.planeCount with
    | some n => n
    | none => if tdIFD.isSome then 1 else 0
  let valid := if numPlanes = 0 then false else true
  { tdIFD := some (tdIFD.getD 0)
    numPlanes := numPlanes
    valid := valid
    firstZ := td.firstZ.getD 0
    firstT := td.firstT.getD 0
    firstC := td.firstC.getD 0 }

/-- C7 counterexample: a `TiffData` carrying an explicit `PlaneCount = 0`
together with a present `IFD` attribute invalidates the series (`valid =
false`, `numPlanes = 0`), contradicting the claim that a zero plane count
with a present IFD means one plane and a surviving series. -/
theorem getTiffDataValues_counterexample :
    (getTiffDataValues ⟨none, none, none, some 0, some 0⟩).valid = false ∧
    (getTiffDataValues ⟨none, none, none, some 0, some 0⟩).numPlanes = 0 :=
  ⟨rfl, rfl⟩

/-- C7 (amended): a missing plane count with a present `IFD` attribute is
interpreted as exactly one plane and the series stays valid; a missing
plane count without an `IFD` attribute, or an explicit plane count of 0
(with or without `IFD`), invalidates the series, and invalidation happens
exactly when the resulting plane count is 0. -/
theorem getTiffDataValues_planeCount (td : TiffData) :
    (td.planeCount = none → td.tdIFD.isSome →
      (getTiffDataValues td).numPlanes = 1 ∧
      (getTiffDataValues td).valid = true) ∧
    (td.planeCount = none → td.tdIFD = none →
      (getTiffDataValues td).numPlanes = 0 ∧
      (getTiffDataValues td).valid = false) ∧
    (td.planeCount = some 0 → (getTiffDataValues td).valid = false) ∧
    ((getTiffDataValues td).valid = false ↔
      (getTiffDataValues td).numPlanes = 0) := by
  refine ⟨?_, ?_, ?_, ?_⟩
  · intro hpc hifd
    rcases hv : td.tdIFD with _ | v
    · rw [hv] at hifd; simp at hifd
    · constructor <;> simp [getTiffDataValues, hpc, hv]
  · intro hpc hifd
    constructor <;> simp [getTiffDataValues, hpc, hifd]
  · intro hpc
    simp [getTiffDataValues, hpc]
  · rcases hpc : td.planeCount with _ | n
    · rcases hv : td.tdIFD with _ | v <;>
        simp [getTiffDataValues, hpc, hv]
    · rcases Nat.eq_zero_or_pos n with hn | hn
      · subst hn; simp [getTiffDataValues, hpc]
      · simp [getTiffDataValues, hpc, Nat.pos_iff_ne_zero.mp hn]

/-- C7 amended-claim witness: a `TiffData` with `IFD = 4` and no plane
count yields one plane and a valid series. -/
theorem getTiffDataValues_planeCount_witness :
    (getTiffDataValues ⟨some 1, none, none, some 4, none⟩).numPlanes = 1 ∧
    (getTiffDataValues ⟨some 1, none, none, some 4, none⟩).valid = true :=
  (getTiffDataValues_planeCount ⟨some 1, none, none, some 4, none⟩).1
    rfl rfl

/-! ## Writer tile size accessors
(`OMETIFFWriter::getTileSizeX` / `getTileSizeY` with the
`FormatWriter` fallbacks) -/

/-- The state consulted by the tile-size accessors: whether `setId` has run
(`currentId` set), the user-set tile sizes, the current IFD's tile width
and height, the metadata store's image-0 `SizeX`, and the current
resolution level's X extent (`FormatWriter::getSizeX`).  The
`metadataRetrieve` handle is always non-null in the source after
construction, so its null check is not modelled. -/
structure TileSizeState where
  currentId : Bool
  tile_size_x : Option Nat
  tile_size_y : Option Nat
  ifdTileWidth : Nat
  ifdTileHeight : Nat
  metaPixelsSizeX0 : Nat
  sizeX : Nat
deriving DecidableEq, Repr

/-- The condition under which the OME-TIFF override consults the current
IFD: the user size is unset, or set and nonzero
(`!tile_size || (tile_size && *tile_size)`). -/
def tileOverride (o : Option Nat) : Bool :=
  match o with
  | none => true
  | some v => v != 0

/-- Embedding of `detail::FormatWriter::getTileSizeX`: the explicit size if
set; after `setId` the current `getSizeX()`; before `setId` the metadata
store's image-0 `SizeX`. -/
def formatWriterGetTileSizeX (st : TileSizeState) : Nat :=
  match st.tile_size_x with
  | none => if st.currentId then st.sizeX else st.metaPixelsSizeX0
  | some v => v

/-- Embedding of `detail::FormatWriter::getTileSizeY`: note that both
fallback branches of the source return X extents (`getSizeX()` and
`getPixelsSizeX(0)`), not Y extents. -/
def formatWriterGetTileSizeY (st : TileSizeState) : Nat :=
  match st.tile_size_y with
  | none => if st.currentId then st.sizeX else st.metaPixelsSizeX0
  | some v => v

/-- Embedding of `OMETIFFWriter::getTileSizeX`: after `setId`, with the
tile size unset or nonzero, return the current IFD's tile width; otherwise
fall back to the base class. -/
def omeTiffGetTileSizeX (st : TileSizeState) : Nat :=
  if st.currentId && tileOverride st.tile_size_x then st.ifdTileWidth
  else formatWriterGetTileSizeX st

/-- Embedding of `OMETIFFWriter::getTileSizeY`: the source returns
`ifd->getTileWidth()` from this accessor as well. -/
def omeTiffGetTileSizeY (st : TileSizeState) : Nat :=
  if st.currentId && tileOverride st.tile_size_y then st.ifdTileWidth
  else formatWriterGetTileSizeY st

/-- C8: with no explicit tile size, before `setId` both accessors return the
metadata store's image-0 `SizeX` as the claim states; but after `setId`
`getTileSizeY` returns the current IFD's tile *width*, not its tile
height: on an IFD with tile width 256 and tile height 128 it returns
256. -/
theorem getTileSize_accessors (st : TileSizeState)
    (hx : st.tile_size_x = none) (hy : st.tile_size_y = none) :
    (st.currentId = false →
      omeTiffGetTileSizeX st = st.metaPixelsSizeX0 ∧
      omeTiffGetTileSizeY st = st.metaPixelsSizeX0) ∧
    (st.currentId = true →
      omeTiffGetTileSizeX st = st.ifdTileWidth ∧
      omeTiffGetTileSizeY st = st.ifdTileWidth) ∧
    omeTiffGetTileSizeY ⟨true, none, none, 256, 128, 64, 64⟩ = 256 := by
  refine ⟨?_, ?_, rfl⟩
  · intro hc
    constructor
    · simp [omeTiffGetTileSizeX, formatWriterGetTileSizeX, hc, hx]
    · simp [omeTiffGetTileSizeY, formatWriterGetTileSizeY, hc, hy]
  · intro hc
    constructor
    · simp [omeTiffGetTileSizeX, tileOverride, hc, hx]
    · simp [omeTiffGetTileSizeY, tileOverride, hc, hy]

/-- C8 witness: before `setId` both accessors fall back to the image-0
`SizeX` of 64; after `setId` the Y accessor reports the tile width 256
although the IFD's tile height is 128. -/
theorem getTileSize_accessors_witness :
    (omeTiffGetTileSizeX ⟨false, none, none, 256, 128, 64, 512⟩ = 64 ∧
     omeTiffGetTileSizeY ⟨false, none, none, 256, 128, 64, 512⟩ = 64) ∧
    omeTiffGetTileSizeY ⟨true, none, none, 256, 128, 64, 512⟩ = 256 :=
  ⟨(getTileSize_accessors ⟨false, none, none, 256, 128, 64, 512⟩
      rfl rfl).1 rfl,
   ((getTileSize_accessors ⟨true, none, none, 256, 128, 64, 512⟩
      rfl rfl).2.1 rfl).2⟩

/-! ## Three-arrays-of-16-bit TIFF field codec
(`generic_array_get3` / `generic_array_set3` in Field.cpp) -/

/-- TIFF tag number of `COLORMAP`. -/
def TIFFTAG_COLORMAP : Nat := 320

/-- TIFF tag number of `TRANSFERFUNCTION`. -/
def TIFFTAG_TRANSFERFUNCTION : Nat := 301

/-- The raw per-IFD state read and written by the three-array field codec:
`BitsPerSample`, `SamplesPerPixel`, the defaulted `ExtraSamples` count,
and the three stored arrays of the tag.  Element values are 16-bit words
left as `Nat`. -/
structure IFDFieldState where
  bitsPerSample : Nat
  samplesPerPixel : Nat
  extraSamples : Nat
  arr0 : List Nat
  arr1 : List Nat
  arr2 : List Nat
deriving DecidableEq, Repr

/-- Embedding of `generic_array_get3`: for `COLORMAP` read three arrays of
`2^BitsPerSample` elements; for `TRANSFERFUNCTION` compute
`limit = (SamplesPerPixel - ExtraSamples == 1)` (in `int` arithmetic) and,
when limited, read a single array and clear the second and third.
`COLORMAP` and `TRANSFERFUNCTION` are the only tags of the three-array
shape, so the source's trailing `readcount` branches are unreachable for
this shape and map to an error here. -/
def generic_array_get3 (st : IFDFieldState) (tag : Nat) :
    Except String (List Nat × List Nat × List Nat) :=
  if tag = TIFFTAG_COLORMAP then
    let count := 2 ^ st.bitsPerSample
    .ok (st.arr0.take count, st.arr1.take count, st.arr2.take count)
  else if tag = TIFFTAG_TRANSFERFUNCTION then
    let limit : Bool := (st.samplesPerPixel : Int) - (st.extraSamples : Int) = 1
    let count := 2 ^ st.bitsPerSample
    if limit then .ok (st.arr0.take count, [], [])
    else .ok (st.arr0.take count, st.arr1.take count, st.arr2.take count)
  else .error "unsupported three-array tag"

/-- Embedding of `generic_array_set3`: first require the three arrays to
have equal sizes; for `COLORMAP` store all three; for `TRANSFERFUNCTION`
store all three when `SamplesPerPixel - ExtraSamples > 1` and only the
first otherwise. -/
def generic_array_set3 (st : IFDFieldState) (tag : Nat)
    (value : List Nat × List Nat × List Nat) : Except String IFDFieldState :=
  if value.1.length ≠ value.2.1.length ∨ value.1.length ≠ value.2.2.length then
    .error "Field array sizes are not equal"
  else if tag = TIFFTAG_COLORMAP then
    .ok { st with arr0 := value.1, arr1 := value.2.1, arr2 := value.2.2 }
  else if tag = TIFFTAG_TRANSFERFUNCTION then
    if (st.samplesPerPixel : Int) - (st.extraSamples : Int) > 1 then
      .ok { st with arr0 := value.1, arr1 := value.2.1, arr2 := value.2.2 }
    else
      .ok { st with arr0 := value.1 }
  else .error "unsupported three-array tag"

/-- C9 counterexample: with `BitsPerSample = 1`, `SamplesPerPixel = 1` and
no extra samples, reading `TRANSFERFUNCTION` collapses to
`([5, 6], [], [])`, and writing that very value back fails the equal-sizes
check instead of restoring the state: read and write are not inverses in
the collapsed case. -/
theorem generic_array_get3_set3_counterexample :
    generic_array_get3 ⟨1, 1, 0, [5, 6], [7, 8], [9, 10]⟩
      TIFFTAG_TRANSFERFUNCTION = .ok ([5, 6], [], []) ∧
    generic_array_set3 ⟨1, 1, 0, [5, 6], [7, 8], [9, 10]⟩
      TIFFTAG_TRANSFERFUNCTION ([5, 6], [], [])
      = .error "Field array sizes are not equal" :=
  ⟨rfl, rfl⟩

/-- C9 (amended): on stored arrays of length `2^BitsPerSample`, reading
`COLORMAP` returns the three arrays (each of length `2^BitsPerSample`) and
writing the read value back restores the state; `TRANSFERFUNCTION`
collapses to a single array exactly when `SamplesPerPixel - ExtraSamples
= 1`, and read/write is an inverse pair only in the non-collapsed case —
the collapsed read value is rejected by the writer, whose equal-sizes
check precedes its single-array branch. -/
theorem generic_array_get3_set3_spec (st : IFDFieldState)
    (h0 : st.arr0.length = 2 ^ st.bitsPerSample)
    (h1 : st.arr1.length = 2 ^ st.bitsPerSample)
    (h2 : st.arr2.length = 2 ^ st.bitsPerSample) :
    (generic_array_get3 st TIFFTAG_COLORMAP
        = .ok (st.arr0, st.arr1, st.arr2) ∧
      generic_array_set3 st TIFFTAG_COLORMAP (st.arr0, st.arr1, st.arr2)
        = .ok st) ∧
    ((st.samplesPerPixel : Int) - (st.extraSamples : Int) = 1 →
      generic_array_get3 st TIFFTAG_TRANSFERFUNCTION
        = .ok (st.arr0, [], []) ∧
      generic_array_set3 st TIFFTAG_TRANSFERFUNCTION (st.arr0, [], [])
        = .error "Field array sizes are not equal") ∧
    ((st.samplesPerPixel : Int) - (st.extraSamples : Int) ≠ 1 →
      generic_array_get3 st TIFFTAG_TRANSFERFUNCTION
        = .ok (st.arr0, st.arr1, st.arr2) ∧
      generic_array_set3 st TIFFTAG_TRANSFERFUNCTION
        (st.arr0, st.arr1, st.arr2) = .ok st) := by
  have t0 : st.arr0.take (2 ^ st.bitsPerSample) = st.arr0 := by
    rw [← h0, List.take_length]
  have t1 : st.arr1.take (2 ^ st.bitsPerSample) = st.arr1 := by
    rw [← h1, List.take_length]
  have t2 : st.arr2.take (2 ^ st.bitsPerSample) = st.arr2 := by
    rw [← h2, List.take_length]
  have hpos : 0 < 2 ^ st.bitsPerSample := Nat.pos_pow_of_pos _ (by omega)
  have hne : 2 ^ st.bitsPerSample ≠ 0 := Nat.pos_iff_ne_zero.mp hpos
  refine ⟨⟨?_, ?_⟩, ?_, ?_⟩
  · simp [generic_array_get3, TIFFTAG_COLORMAP, t0, t1, t2]
  · simp [generic_array_set3, TIFFTAG_COLORMAP, h0, h1, h2]
  · intro hlim
    constructor
    · simp [generic_array_get3, TIFFTAG_COLORMAP, TIFFTAG_TRANSFERFUNCTION,
        hlim, t0]
    · simp [generic_array_set3, TIFFTAG_COLORMAP, TIFFTAG_TRANSFERFUNCTION,
        h0, hne]
  · intro hlim
    constructor
    · simp [generic_array_get3, TIFFTAG_COLORMAP, TIFFTAG_TRANSFERFUNCTION,
        hlim, t0, t1, t2]
    · rcases lt_or_le (1 : Int)
          ((st.samplesPerPixel : Int) - (st.extraSamples : Int)) with hgt | hle
      · simp [generic_array_set3, TIFFTAG_COLORMAP, TIFFTAG_TRANSFERFUNCTION,
          h0, h1, h2, hgt]
      · have hnot : ¬(1 : Int) <
            (st.samplesPerPixel : Int) - (st.extraSamples : Int) :=
          not_lt.mpr hle
        simp [generic_array_set3, TIFFTAG_COLORMAP, TIFFTAG_TRANSFERFUNCTION,
          h0, h1, h2, hnot]

/-- C9 amended-claim witness: a two-sample `TRANSFERFUNCTION` read/write
round trip restores the state. -/
theorem generic_array_get3_set3_spec_witness :
    generic_array_get3 ⟨1, 2, 0, [5, 6], [7, 8], [9, 10]⟩
      TIFFTAG_TRANSFERFUNCTION = .ok ([5, 6], [7, 8], [9, 10]) ∧
    generic_array_set3 ⟨1, 2, 0, [5, 6], [7, 8], [9, 10]⟩
      TIFFTAG_TRANSFERFUNCTION ([5, 6], [7, 8], [9, 10])
      = .ok ⟨1, 2, 0, [5, 6], [7, 8], [9, 10]⟩ :=
  (generic_array_get3_set3_spec ⟨1, 2, 0, [5, 6], [7, 8], [9, 10]⟩
    rfl rfl rfl).2.2 (by decide)

/-! ## Close-time ImageDescription patch (`OMETIFFWriter::saveComment`)

The output file is modelled as a list of bytes.  `read_raw` /
`write_raw` on the raw stream become `readUInt` / `writeUInt` over the
byte list, parameterised by the endianness selected from the TIFF header
(the `ENDIAN_NATIVE` case is unreachable in `saveComment`, which always
selects big or little from the `II` / `MM` marker). -/

/-- Byte order selected from the TIFF endian marker. -/
inductive EndianType where
  | big
  | little
deriving DecidableEq, Repr

/-- Little-endian byte-list value: head is the least significant byte. -/
def decodeLE : List Nat → Nat
  | [] => 0
  | b :: rest => b + 256 * decodeLE rest

/-- Decode a byte list read from the stream in the given byte order. -/
def decodeUInt (endian : EndianType) (bs : List Nat) : Nat :=
  match endian with
  | .little => decodeLE bs
  | .big => decodeLE bs.reverse

/-- Read `size` bytes at offset `off`; `none` models a failed stream read. -/
def readBytes (f : List Nat) : Nat → Nat → Option (List Nat)
  | _, 0 => some []
  | off, size + 1 =>
    match f[off]? with
    | none => none
    | some b =>
      match readBytes f (off + 1) size with
      | none => none
      | some rest => some (b :: rest)

/-- Embedding of the `read_raw` helpers of OMETIFFWriter.cpp: read a
`size`-byte unsigned integer at offset `off` in the given byte order. -/
def readUInt (size : Nat) (endian : EndianType) (f : List Nat) (off : Nat) :
    Option Nat :=
  (readBytes f off size).map (decodeUInt endian)

/-- Little-endian digits of `v`, `size` bytes (truncating like the C++
fixed-width integer conversions). -/
def encodeLE : Nat → Nat → List Nat
  | 0, _ => []
  | size + 1, v => v % 256 :: encodeLE size (v / 256)

/-- Encode a `size`-byte unsigned integer in the given byte order. -/
def encodeUInt (size : Nat) (endian : EndianType) (v : Nat) : List Nat :=
  match endian with
  | .little => encodeLE size v
  | .big => (encodeLE size v).reverse

/-- Overwrite bytes in place starting at `off` (positions beyond the end of
the file are dropped by `List.set`, matching a failed stream write only in
the out-of-range case the theorems exclude). -/
def writeBytes (f : List Nat) : Nat → List Nat → List Nat
  | _, [] => f
  | off, b :: rest => writeBytes (f.set off b) (off + 1) rest

/-- Embedding of the `write_raw` helpers: overwrite a `size`-byte unsigned
integer at offset `off`. -/
def writeUInt (size : Nat) (endian : EndianType) (f : List Nat)
    (off v : Nat) : List Nat :=
  writeBytes f off (encodeUInt size endian v)

/-- TIFF tag number of `ImageDescription`. -/
def TIFFTAG_IMAGEDESCRIPTION : Nat := 270

/-- TIFF type code of `ASCII` fields. -/
def TIFF_ASCII : Nat := 2

/-- The placeholder description written on each file's first IFD. -/
def default_description : String := "OME-TIFF"

/-- Offset of directory entry `i` of the first IFD: entries are 12 bytes
after a 2-byte count for classic TIFF, 20 bytes after an 8-byte count for
BigTIFF. -/
def tagOffset (bigOffsets : Bool) (ifd0Offset i : Nat) : Nat :=
  if bigOffsets then ifd0Offset + 8 + i * 20 else ifd0Offset + 2 + i * 12

/-- The in-place patch of a matched `ImageDescription` entry at `tagOff`:
overwrite the count field (entry offset +4) with `xmlLen + 1` and the
offset field (+8 classic with 32-bit fields, +12 BigTIFF with 64-bit
fields) with `descOffset`. -/
def patchEntry (endian : EndianType) (bigOffsets : Bool)
    (tagOff descOffset xmlLen : Nat) (f : List Nat) : List Nat :=
  if bigOffsets then
    writeUInt 8 endian (writeUInt 8 endian f (tagOff + 4) (xmlLen + 1))
      (tagOff + 12) descOffset
  else
    writeUInt 4 endian (writeUInt 4 endian f (tagOff + 4) (xmlLen + 1))
      (tagOff + 8) descOffset

/-- The directory-entry scan loop of `saveComment`: starting at entry `i`
with `remaining` entries left, skip entries whose tag is not
`ImageDescription`; on a matching entry require type `ASCII` and count
`strlen("OME-TIFF") + 1`, then patch the count and offset fields. -/
def scanEntries (endian : EndianType) (bigOffsets : Bool)
    (ifd0Offset descOffset xmlLen : Nat) :
    Nat → Nat → List Nat → Bool → Except String (List Nat × Bool)
  | 0, _, f, found => .ok (f, found)
  | remaining + 1, i, f, found =>
    let tagOff := tagOffset bigOffsets ifd0Offset i
    match readUInt 2 endian f tagOff with
    | none => .error "Failed to read value from stream"
    | some tagid =>
      match readUInt 2 endian f (tagOff + 2) with
      | none => .error "Failed to read value from stream"
      | some tagtype =>
        if tagid ≠ TIFFTAG_IMAGEDESCRIPTION then
          scanEntries endian bigOffsets ifd0Offset descOffset xmlLen
            remaining (i + 1) f found
        else if tagtype ≠ TIFF_ASCII then
          .error "Invalid TIFF ImageDescription type"
        else
          match (if bigOffsets then readUInt 8 endian f (tagOff + 4)
                 else readUInt 4 endian f (tagOff + 4)) with
          | none => .error "Failed to read value from stream"
          | some count =>
            if count ≠ default_description.length + 1 then
              .error "TIFF ImageDescription size is incorrect"
            else
              scanEntries endian bigOffsets ifd0Offset descOffset xmlLen
                remaining (i + 1)
                (patchEntry endian bigOffsets tagOff descOffset xmlLen f)
                true

/-- The body of `saveComment` after the endianness and version have been
established: check the BigTIFF offset size, read the first IFD offset,
append the XML with a NUL terminator at end of file (noting the offset),
read the entry count and run the entry scan; fail if no `ImageDescription`
entry was found. -/
def saveCommentBody (endian : EndianType) (bigOffsets : Bool)
    (f xml : List Nat) : Except String (List Nat) :=
  match (if bigOffsets then readUInt 2 endian f 4 else some 4) with
  | none => .error "Failed to read value from stream"
  | some offsetSize =>
    if offsetSize ≠ 4 ∧ offsetSize ≠ 8 then
      .error "nonstandard offset size"
    else
      match (if bigOffsets then readUInt 8 endian f 8
             else readUInt 4 endian f 4) with
      | none => .error "Failed to read value from stream"
      | some ifd0Offset =>
        let descOffset := f.length
        let appended := f ++ xml ++ [0]
        match (if bigOffsets then readUInt 8 endian appended ifd0Offset
               else readUInt 2 endian appended ifd0Offset) with
        | none => .error "Failed to read value from stream"
        | some entries =>
          match scanEntries endian bigOffsets ifd0Offset descOffset
              xml.length entries 0 appended false with
          | .error e => .error e
          | .ok (patched, found) =>
            if found then .ok patched
            else .error "Could not find TIFF ImageDescription tag"

/-- The version dispatch of `saveComment`: 0x2A selects classic offsets,
0x2B BigTIFF offsets, anything else is rejected. -/
def saveCommentVersioned (endian : EndianType) (f xml : List Nat) :
    Except String (List Nat) :=
  match readUInt 2 endian f 2 with
  | none => .error "Failed to read value from stream"
  | some version =>
    if version = 42 then saveCommentBody endian false f xml
    else if version = 43 then saveCommentBody endian true f xml
    else .error "Invalid version"

/-- Embedding of `OMETIFFWriter::saveComment`: open the closed output file
as a raw byte stream, select the byte order from the `II` / `MM` marker
and dispatch on the TIFF version. -/
def saveComment (f xml : List Nat) : Except String (List Nat) :=
  match f[0]?, f[1]? with
  | some c0, some c1 =>
    if c0 = 73 ∧ c1 = 73 then saveCommentVersioned .little f xml
    else if c0 = 77 ∧ c1 = 77 then saveCommentVersioned .big f xml
    else .error "Invalid endian header"
  | _, _ => .error "Failed to read value from stream"

/-- Overwriting bytes preserves the file length. -/
theorem writeBytes_length (bs : List Nat) :
    ∀ f off, (writeBytes f off bs).length = f.length := by
  induction bs with
  | nil => intro f off; rfl
  | cons b rest ih =>
    intro f off
    simp only [writeBytes]
    rw [ih, List.length_set]

/-- Bytes outside the written range are unchanged. -/
theorem getElem?_writeBytes_outside (bs : List Nat) :
    ∀ f off k, k < off ∨ off + bs.length ≤ k →
      (writeBytes f off bs)[k]? = f[k]? := by
  induction bs with
  | nil => intro f off k _; rfl
  | cons b rest ih =>
    intro f off k hk
    simp only [writeBytes]
    rw [ih (f.set off b) (off + 1) k
      (by simp only [List.length_cons] at hk; omega)]
    exact List.getElem?_set_ne (by simp only [List.length_cons] at hk; omega)

/-- Reading depends only on the bytes of the range read. -/
theorem readBytes_congr (size : Nat) :
    ∀ (f g : List Nat) off, (∀ k, off ≤ k → k < off + size → g[k]? = f[k]?) →
      readBytes g off size = readBytes f off size := by
  induction size with
  | zero => intro f g off _; rfl
  | succ n ih =>
    intro f g off hk
    simp only [readBytes]
    rw [hk off (Nat.le_refl _) (by omega),
      ih f g (off + 1) (fun k h1 h2 => hk k (by omega) (by omega))]

/-- Reading back an in-range write returns the written bytes. -/
theorem readBytes_writeBytes_self (bs : List Nat) :
    ∀ f off, off + bs.length ≤ f.length →
      readBytes (writeBytes f off bs) off bs.length = some bs := by
  induction bs with
  | nil => intro f off _; rfl
  | cons b rest ih =>
    intro f off hlen
    simp only [writeBytes, readBytes, List.length_cons]
    have hoff : off < f.length := by simp at hlen; omega
    have hhead : (writeBytes (f.set off b) (off + 1) rest)[off]? = some b := by
      rw [getElem?_writeBytes_outside rest (f.set off b) (off + 1) off
        (Or.inl (by omega))]
      exact List.getElem?_set_eq_of_lt b hoff
    rw [hhead, ih (f.set off b) (off + 1)
      (by rw [List.length_set]; simp at hlen; omega)]

/-- Reading a range inside the original file ignores appended bytes. -/
theorem readBytes_append (size : Nat) (f g : List Nat) (off : Nat)
    (h : off + size ≤ f.length) :
    readBytes (f ++ g) off size = readBytes f off size :=
  readBytes_congr size f (f ++ g) off
    (fun k h1 h2 => List.getElem?_append_left (by omega))

/-- An in-range read succeeds. -/
theorem readBytes_isSome (size : Nat) :
    ∀ (f : List Nat) off, off + size ≤ f.length →
      (readBytes f off size).isSome := by
  induction size with
  | zero => intro f off _; rfl
  | succ n ih =>
    intro f off h
    have hoff : off < f.length := by omega
    simp only [readBytes]
    rcases List.getElem?_eq_getElem hoff ▸ Option.isSome_some with _
    rw [List.getElem?_eq_getElem hoff]
    have := ih f (off + 1) (by omega)
    rcases hr : readBytes f (off + 1) n with _ | rest
    · rw [hr] at this; simp at this
    · rfl

/-- The encoding of a value has exactly `size` bytes. -/
theorem encodeLE_length (size : Nat) : ∀ v, (encodeLE size v).length = size := by
  induction size with
  | zero => intro v; rfl
  | succ n ih => intro v; simp only [encodeLE, List.length_cons, ih]

/-- The encoding of a value has exactly `size` bytes in either byte order. -/
theorem encodeUInt_length (size : Nat) (endian : EndianType) (v : Nat) :
    (encodeUInt size endian v).length = size := by
  cases endian <;>
    simp [encodeUInt, encodeLE_length, List.length_reverse]

/-- Decoding an encoding recovers the value modulo `256 ^ size`. -/
theorem decodeLE_encodeLE (size : Nat) :
    ∀ v, decodeLE (encodeLE size v) = v % 256 ^ size := by
  induction size with
  | zero => intro v; simp [encodeLE, decodeLE, Nat.mod_one]
  | succ n ih =>
    intro v
    simp only [encodeLE, decodeLE, ih]
    rw [pow_succ']
    rw [Nat.mod_mul]

/-- Decoding an encoding recovers the value in either byte order. -/
theorem decodeUInt_encodeUInt (size : Nat) (endian : EndianType) (v : Nat) :
    decodeUInt endian (encodeUInt size endian v) = v % 256 ^ size := by
  cases endian <;>
    simp [decodeUInt, encodeUInt, List.reverse_reverse, decodeLE_encodeLE]

/-- Overwriting an integer preserves the file length. -/
theorem writeUInt_length (size : Nat) (endian : EndianType) (f : List Nat)
    (off v : Nat) : (writeUInt size endian f off v).length = f.length :=
  writeBytes_length _ f off

/-- Bytes outside an integer write are unchanged. -/
theorem getElem?_writeUInt_outside (size : Nat) (endian : EndianType)
    (f : List Nat) (off v k : Nat) (hk : k < off ∨ off + size ≤ k) :
    (writeUInt size endian f off v)[k]? = f[k]? :=
  getElem?_writeBytes_outside _ f off k
    (by rw [encodeUInt_length]; exact hk)

/-- Reading back an in-range integer write returns the value modulo
`256 ^ size`. -/
theorem readUInt_writeUInt_self (size : Nat) (endian : EndianType)
    (f : List Nat) (off v : Nat) (h : off + size ≤ f.length) :
    readUInt size endian (writeUInt size endian f off v) off
      = some (v % 256 ^ size) := by
  have hw := readBytes_writeBytes_self (encodeUInt size endian v) f off
    (by rw [encodeUInt_length]; exact h)
  rw [encodeUInt_length] at hw
  simp only [readUInt, writeUInt, hw, Option.map_some']
  rw [decodeUInt_encodeUInt]

/-- An integer read from a range disjoint from an integer write is
unchanged. -/
theorem readUInt_writeUInt_disjoint (size size2 : Nat) (endian : EndianType)
    (f : List Nat) (off v off2 : Nat)
    (h : off2 + size2 ≤ off ∨ off + size ≤ off2) :
    readUInt size2 endian (writeUInt size endian f off v) off2
      = readUInt size2 endian f off2 := by
  unfold readUInt
  rw [readBytes_congr size2 f _ off2
    (fun k h1 h2 => getElem?_writeUInt_outside size endian f off v k
      (by omega))]

/-- An integer read inside the original file ignores appended bytes. -/
theorem readUInt_append (size : Nat) (endian : EndianType) (f g : List Nat)
    (off : Nat) (h : off + size ≤ f.length) :
    readUInt size endian (f ++ g) off = readUInt size endian f off := by
  unfold readUInt
  rw [readBytes_append size f g off h]

/-- An in-range integer read succeeds. -/
theorem readUInt_isSome (size : Nat) (endian : EndianType) (f : List Nat)
    (off : Nat) (h : off + size ≤ f.length) :
    (readUInt size endian f off).isSome := by
  unfold readUInt
  have := readBytes_isSome size f off h
  rcases hr : readBytes f off size with _ | bs
  · rw [hr] at this; simp at this
  · rfl

/-- Scanning a block of `a` entries none of which carries the
`ImageDescription` tag advances the scan without touching the file. -/
theorem scanEntries_skip (endian : EndianType) (bigOffsets : Bool)
    (ifd0Offset descOffset xmlLen : Nat) :
    ∀ (a b i : Nat) (g : List Nat) (found : Bool),
      (∀ j, i ≤ j → j < i + a →
        (∃ tg, readUInt 2 endian g (tagOffset bigOffsets ifd0Offset j)
            = some tg ∧ tg ≠ TIFFTAG_IMAGEDESCRIPTION) ∧
        (readUInt 2 endian g
          (tagOffset bigOffsets ifd0Offset j + 2)).isSome) →
      scanEntries endian bigOffsets ifd0Offset descOffset xmlLen
          (a + b) i g found
        = scanEntries endian bigOffsets ifd0Offset descOffset xmlLen
            b (i + a) g found := by
  intro a
  induction a with
  | zero => intro b i g found _; simp
  | succ m ih =>
    intro b i g found hj
    obtain ⟨⟨tg, htg, hne⟩, htt⟩ := hj i (Nat.le_refl i) (by omega)
    obtain ⟨tt, htt'⟩ := Option.isSome_iff_exists.mp htt
    have harith : m + 1 + b = (m + b) + 1 := by omega
    rw [harith]
    simp only [scanEntries, htg, htt', hne, ne_eq, not_false_eq_true,
      if_true, ite_true]
    rw [ih b (i + 1) g found
      (fun j h1 h2 => hj j (by omega) (by omega))]
    have harith2 : i + 1 + m = i + (m + 1) := by omega
    rw [harith2]

/-- Reads beyond the end of the patched entry are unaffected by the patch. -/
theorem readUInt_patchEntry_past (endian : EndianType) (bigOffsets : Bool)
    (tagOff descOffset xmlLen : Nat) (g : List Nat) (sz off : Nat)
    (hoff : tagOff + (if bigOffsets then 20 else 12) ≤ off) :
    readUInt sz endian
        (patchEntry endian bigOffsets tagOff descOffset xmlLen g) off
      = readUInt sz endian g off := by
  cases bigOffsets with
  | false =>
    simp only [patchEntry, Bool.false_eq_true, if_false] at hoff ⊢
    rw [readUInt_writeUInt_disjoint 4 sz endian _ (tagOff + 8) descOffset off
        (Or.inr (by omega)),
      readUInt_writeUInt_disjoint 4 sz endian g (tagOff + 4) (xmlLen + 1) off
        (Or.inr (by omega))]
  | true =>
    simp only [patchEntry, if_true] at hoff ⊢
    rw [readUInt_writeUInt_disjoint 8 sz endian _ (tagOff + 12) descOffset off
        (Or.inr (by omega)),
      readUInt_writeUInt_disjoint 8 sz endian g (tagOff + 4) (xmlLen + 1) off
        (Or.inr (by omega))]

/-- Entry offsets grow by the entry size: entry `j` past entry `idx` starts
at least one whole entry later. -/
theorem tagOffset_mono (bigOffsets : Bool) (ifd0Offset idx j : Nat)
    (h : idx < j) :
    tagOffset bigOffsets ifd0Offset idx + (if bigOffsets then 20 else 12)
      ≤ tagOffset bigOffsets ifd0Offset j := by
  cases bigOffsets <;> simp [tagOffset] <;> omega

/-- Scanning all `n` entries of an IFD whose only `ImageDescription` entry
is entry `idx` (of type ASCII and placeholder count) succeeds and returns
the file with exactly that entry patched. -/
theorem scanEntries_finds_and_patches (endian : EndianType)
    (bigOffsets : Bool) (ifd0Offset descOffset xmlLen : Nat) (g : List Nat)
    (n idx : Nat) (hidx : idx < n)
    (htag : readUInt 2 endian g (tagOffset bigOffsets ifd0Offset idx)
        = some TIFFTAG_IMAGEDESCRIPTION)
    (htype : readUInt 2 endian g (tagOffset bigOffsets ifd0Offset idx + 2)
        = some TIFF_ASCII)
    (hdesc : (if bigOffsets then
          readUInt 8 endian g (tagOffset bigOffsets ifd0Offset idx + 4)
        else readUInt 4 endian g (tagOffset bigOffsets ifd0Offset idx + 4))
        = some (default_description.length + 1))
    (hothers : ∀ j, j < n → j ≠ idx →
      (∃ tg, readUInt 2 endian g (tagOffset bigOffsets ifd0Offset j)
          = some tg ∧ tg ≠ TIFFTAG_IMAGEDESCRIPTION) ∧
      (readUInt 2 endian g (tagOffset bigOffsets ifd0Offset j + 2)).isSome) :
    scanEntries endian bigOffsets ifd0Offset descOffset xmlLen n 0 g false
      = .ok (patchEntry endian bigOffsets
          (tagOffset bigOffsets ifd0Offset idx) descOffset xmlLen g,
          true) := by
  have hdecomp : n = idx + (n - idx) := by omega
  rw [hdecomp,
    scanEntries_skip endian bigOffsets ifd0Offset descOffset xmlLen
      idx (n - idx) 0 g false
      (fun j h1 h2 => hothers j (by omega) (by omega))]
  have h2 : n - idx = (n - idx - 1) + 1 := by omega
  rw [Nat.zero_add, h2]
  simp only [scanEntries, htag, htype, hdesc, ne_eq, eq_self_iff_true,
    not_true_eq_false, if_false, ite_false]
  have hpast : ∀ sz off,
      tagOffset bigOffsets ifd0Offset idx + (if bigOffsets then 20 else 12)
        ≤ off →
      readUInt sz endian
          (patchEntry endian bigOffsets
            (tagOffset bigOffsets ifd0Offset idx) descOffset xmlLen g) off
        = readUInt sz endian g off :=
    fun sz off hoff =>
      readUInt_patchEntry_past endian bigOffsets _ descOffset xmlLen g sz
        off hoff
  have h3 : n - idx - 1 = (n - idx - 1) + 0 := by omega
  rw [h3,
    scanEntries_skip endian bigOffsets ifd0Offset descOffset xmlLen
      (n - idx - 1) 0 (idx + 1) _ true ?hyp]
  · rfl
  case hyp =>
    intro j h1 h2
    have hmono := tagOffset_mono bigOffsets ifd0Offset idx j (by omega)
    obtain ⟨⟨tg, htg, hne⟩, htt⟩ := hothers j (by omega) (by omega)
    refine ⟨⟨tg, ?_, hne⟩, ?_⟩
    · rw [hpast 2 _ hmono]; exact htg
    · rw [hpast 2 _ (by omega)]; exact htt

/-- The patch rewrites fields in place: the file length is unchanged. -/
theorem patchEntry_length (endian : EndianType) (bigOffsets : Bool)
    (tagOff descOffset xmlLen : Nat) (g : List Nat) :
    (patchEntry endian bigOffsets tagOff descOffset xmlLen g).length
      = g.length := by
  cases bigOffsets <;> simp [patchEntry, writeUInt_length]

/-- Bytes at or past the end of the patched entry are unchanged. -/
theorem getElem?_patchEntry_past (endian : EndianType) (bigOffsets : Bool)
    (tagOff descOffset xmlLen : Nat) (g : List Nat) (k : Nat)
    (hk : tagOff + (if bigOffsets then 20 else 12) ≤ k) :
    (patchEntry endian bigOffsets tagOff descOffset xmlLen g)[k]? = g[k]? := by
  cases bigOffsets with
  | false =>
    simp only [patchEntry, Bool.false_eq_true, if_false] at hk ⊢
    rw [getElem?_writeUInt_outside 4 endian _ (tagOff + 8) descOffset k
        (Or.inr (by omega)),
      getElem?_writeUInt_outside 4 endian g (tagOff + 4) (xmlLen + 1) k
        (Or.inr (by omega))]
  | true =>
    simp only [patchEntry, if_true] at hk ⊢
    rw [getElem?_writeUInt_outside 8 endian _ (tagOff + 12) descOffset k
        (Or.inr (by omega)),
      getElem?_writeUInt_outside 8 endian g (tagOff + 4) (xmlLen + 1) k
        (Or.inr (by omega))]

/-- Reads ending at or before the count field are unaffected by the patch:
in particular the entry's tag and type fields. -/
theorem readUInt_patchEntry_before (endian : EndianType) (bigOffsets : Bool)
    (tagOff descOffset xmlLen : Nat) (g : List Nat) (sz off : Nat)
    (hoff : off + sz ≤ tagOff + 4) :
    readUInt sz endian
        (patchEntry endian bigOffsets tagOff descOffset xmlLen g) off
      = readUInt sz endian g off := by
  cases bigOffsets with
  | false =>
    simp only [patchEntry, Bool.false_eq_true, if_false]
    rw [readUInt_writeUInt_disjoint 4 sz endian _ (tagOff + 8) descOffset off
        (Or.inl (by omega)),
      readUInt_writeUInt_disjoint 4 sz endian g (tagOff + 4) (xmlLen + 1) off
        (Or.inl (by omega))]
  | true =>
    simp only [patchEntry, if_true]
    rw [readUInt_writeUInt_disjoint 8 sz endian _ (tagOff + 12) descOffset off
        (Or.inl (by omega)),
      readUInt_writeUInt_disjoint 8 sz endian g (tagOff + 4) (xmlLen + 1) off
        (Or.inl (by omega))]

/-- After the patch the entry's count field holds `xmlLen + 1` (reduced to
the field width). -/
theorem readUInt_patchEntry_count (endian : EndianType) (bigOffsets : Bool)
    (tagOff descOffset xmlLen : Nat) (g : List Nat)
    (hlen : tagOff + (if bigOffsets then 20 else 12) ≤ g.length) :
    (if bigOffsets then
        readUInt 8 endian
          (patchEntry endian bigOffsets tagOff descOffset xmlLen g)
          (tagOff + 4)
      else
        readUInt 4 endian
          (patchEntry endian bigOffsets tagOff descOffset xmlLen g)
          (tagOff + 4))
      = some ((xmlLen + 1) % 256 ^ (if bigOffsets then 8 else 4)) := by
  cases bigOffsets with
  | false =>
    simp only [patchEntry, Bool.false_eq_true, if_false] at hlen ⊢
    rw [readUInt_writeUInt_disjoint 4 4 endian _ (tagOff + 8) descOffset
        (tagOff + 4) (Or.inl (by omega)),
      readUInt_writeUInt_self 4 endian g (tagOff + 4) (xmlLen + 1)
        (by omega)]
  | true =>
    simp only [patchEntry, if_true] at hlen ⊢
    rw [readUInt_writeUInt_disjoint 8 8 endian _ (tagOff + 12) descOffset
        (tagOff + 4) (Or.inl (by omega)),
      readUInt_writeUInt_self 8 endian g (tagOff + 4) (xmlLen + 1)
        (by omega)]

/-- After the patch the entry's offset field holds `descOffset` (reduced to
the field width). -/
theorem readUInt_patchEntry_descOffset (endian : EndianType)
    (bigOffsets : Bool) (tagOff descOffset xmlLen : Nat) (g : List Nat)
    (hlen : tagOff + (if bigOffsets then 20 else 12) ≤ g.length) :
    (if bigOffsets then
        readUInt 8 endian
          (patchEntry endian bigOffsets tagOff descOffset xmlLen g)
          (tagOff + 12)
      else
        readUInt 4 endian
          (patchEntry endian bigOffsets tagOff descOffset xmlLen g)
          (tagOff + 8))
      = some (descOffset % 256 ^ (if bigOffsets then 8 else 4)) := by
  cases bigOffsets with
  | false =>
    simp only [patchEntry, Bool.false_eq_true, if_false] at hlen ⊢
    rw [readUInt_writeUInt_self 4 endian _ (tagOff + 8) descOffset
      (by rw [writeUInt_length]; omega)]
  | true =>
    simp only [patchEntry, if_true] at hlen ⊢
    rw [readUInt_writeUInt_self 8 endian _ (tagOff + 12) descOffset
      (by rw [writeUInt_length]; omega)]

/-- Reads inside the original file are unchanged by appending the XML blob
and its NUL terminator. -/
theorem readUInt_append_xml (endian : EndianType) (f xml : List Nat)
    (sz off : Nat) (h : off + sz ≤ f.length) :
    readUInt sz endian (f ++ xml ++ [0]) off = readUInt sz endian f off := by
  rw [readUInt_append sz endian (f ++ xml) [0] off
      (by rw [List.length_append]; omega),
    readUInt_append sz endian f xml off h]

/-- `saveCommentBody` on a well-formed classic-TIFF file whose first IFD has
its `ImageDescription` placeholder at entry `idx` appends the XML and
patches exactly that entry. -/
theorem saveCommentBody_classic (endian : EndianType) (f xml : List Nat)
    (ifd0Offset n idx : Nat)
    (hifd : readUInt 4 endian f 4 = some ifd0Offset)
    (hbound : ifd0Offset + 2 + n * 12 ≤ f.length)
    (hentries : readUInt 2 endian f ifd0Offset = some n)
    (hidx : idx < n)
    (htag : readUInt 2 endian f (tagOffset false ifd0Offset idx)
        = some TIFFTAG_IMAGEDESCRIPTION)
    (htype : readUInt 2 endian f (tagOffset false ifd0Offset idx + 2)
        = some TIFF_ASCII)
    (hdesc : readUInt 4 endian f (tagOffset false ifd0Offset idx + 4)
        = some (default_description.length + 1))
    (hothers : ∀ j, j < n → j ≠ idx →
      (readUInt 2 endian f (tagOffset false ifd0Offset j)).isSome ∧
      readUInt 2 endian f (tagOffset false ifd0Offset j)
        ≠ some TIFFTAG_IMAGEDESCRIPTION) :
    saveCommentBody endian false f xml
      = .ok (patchEntry endian false (tagOffset false ifd0Offset idx)
          f.length xml.length (f ++ xml ++ [0])) := by
  have htOffle : ∀ j, j < n →
      tagOffset false ifd0Offset j + 12 ≤ f.length := by
    intro j hj
    simp only [tagOffset, Bool.false_eq_true, if_false]
    omega
  have htag1 : readUInt 2 endian (f ++ xml ++ [0])
      (tagOffset false ifd0Offset idx) = some TIFFTAG_IMAGEDESCRIPTION := by
    rw [readUInt_append_xml endian f xml 2 _
      (by have := htOffle idx hidx; omega)]
    exact htag
  have htype1 : readUInt 2 endian (f ++ xml ++ [0])
      (tagOffset false ifd0Offset idx + 2) = some TIFF_ASCII := by
    rw [readUInt_append_xml endian f xml 2 _
      (by have := htOffle idx hidx; omega)]
    exact htype
  have hdesc1 : readUInt 4 endian (f ++ xml ++ [0])
      (tagOffset false ifd0Offset idx + 4)
        = some (default_description.length + 1) := by
    rw [readUInt_append_xml endian f xml 4 _
      (by have := htOffle idx hidx; omega)]
    exact hdesc
  have hothers1 : ∀ j, j < n → j ≠ idx →
      (∃ tg, readUInt 2 endian (f ++ xml ++ [0])
          (tagOffset false ifd0Offset j) = some tg ∧
        tg ≠ TIFFTAG_IMAGEDESCRIPTION) ∧
      (readUInt 2 endian (f ++ xml ++ [0])
        (tagOffset false ifd0Offset j + 2)).isSome := by
    intro j hj hne
    obtain ⟨hs, hn⟩ := hothers j hj hne
    have hb := htOffle j hj
    obtain ⟨tg, htg⟩ := Option.isSome_iff_exists.mp hs
    refine ⟨⟨tg, ?_, ?_⟩, ?_⟩
    · rw [readUInt_append_xml endian f xml 2 _ (by omega)]
      exact htg
    · intro hcontra
      apply hn
      rw [htg, hcontra]
    · rw [readUInt_append_xml endian f xml 2 _ (by omega)]
      exact readUInt_isSome 2 endian f _ (by omega)
  have hentries1 : readUInt 2 endian (f ++ xml ++ [0]) ifd0Offset
      = some n := by
    rw [readUInt_append_xml endian f xml 2 _ (by omega)]
    exact hentries
  simp only [saveCommentBody, Bool.false_eq_true, if_false]
  rw [if_neg (show ¬((4 : Nat) ≠ 4 ∧ (4 : Nat) ≠ 8) by decide)]
  simp only [hifd, hentries1,
    scanEntries_finds_and_patches endian false ifd0Offset f.length
      xml.length (f ++ xml ++ [0]) n idx hidx htag1 htype1
      (by simp only [Bool.false_eq_true, if_false]; exact hdesc1) hothers1]
  rfl

/-- `saveCommentBody` on a well-formed BigTIFF file whose first IFD has its
`ImageDescription` placeholder at entry `idx` appends the XML and patches
exactly that entry. -/
theorem saveCommentBody_big (endian : EndianType) (f xml : List Nat)
    (ifd0Offset n idx : Nat)
    (hoffsz : readUInt 2 endian f 4 = some 8)
    (hifd : readUInt 8 endian f 8 = some ifd0Offset)
    (hbound : ifd0Offset + 8 + n * 20 ≤ f.length)
    (hentries : readUInt 8 endian f ifd0Offset = some n)
    (hidx : idx < n)
    (htag : readUInt 2 endian f (tagOffset true ifd0Offset idx)
        = some TIFFTAG_IMAGEDESCRIPTION)
    (htype : readUInt 2 endian f (tagOffset true ifd0Offset idx + 2)
        = some TIFF_ASCII)
    (hdesc : readUInt 8 endian f (tagOffset true ifd0Offset idx + 4)
        = some (default_description.length + 1))
    (hothers : ∀ j, j < n → j ≠ idx →
      (readUInt 2 endian f (tagOffset true ifd0Offset j)).isSome ∧
      readUInt 2 endian f (tagOffset true ifd0Offset j)
        ≠ some TIFFTAG_IMAGEDESCRIPTION) :
    saveCommentBody endian true f xml
      = .ok (patchEntry endian true (tagOffset true ifd0Offset idx)
          f.length xml.length (f ++ xml ++ [0])) := by
  have htOffle : ∀ j, j < n →
      tagOffset true ifd0Offset j + 20 ≤ f.length := by
    intro j hj
    simp only [tagOffset, if_true]
    omega
  have htag1 : readUInt 2 endian (f ++ xml ++ [0])
      (tagOffset true ifd0Offset idx) = some TIFFTAG_IMAGEDESCRIPTION := by
    rw [readUInt_append_xml endian f xml 2 _
      (by have := htOffle idx hidx; omega)]
    exact htag
  have htype1 : readUInt 2 endian (f ++ xml ++ [0])
      (tagOffset true ifd0Offset idx + 2) = some TIFF_ASCII := by
    rw [readUInt_append_xml endian f xml 2 _
      (by have := htOffle idx hidx; omega)]
    exact htype
  have hdesc1 : readUInt 8 endian (f ++ xml ++ [0])
      (tagOffset true ifd0Offset idx + 4)
        = some (default_description.length + 1) := by
    rw [readUInt_append_xml endian f xml 8 _
      (by have := htOffle idx hidx; omega)]
    exact hdesc
  have hothers1 : ∀ j, j < n → j ≠ idx →
      (∃ tg, readUInt 2 endian (f ++ xml ++ [0])
          (tagOffset true ifd0Offset j) = some tg ∧
        tg ≠ TIFFTAG_IMAGEDESCRIPTION) ∧
      (readUInt 2 endian (f ++ xml ++ [0])
        (tagOffset true ifd0Offset j + 2)).isSome := by
    intro j hj hne
    obtain ⟨hs, hn⟩ := hothers j hj hne
    have hb := htOffle j hj
    obtain ⟨tg, htg⟩ := Option.isSome_iff_exists.mp hs
    refine ⟨⟨tg, ?_, ?_⟩, ?_⟩
    · rw [readUInt_append_xml endian f xml 2 _ (by omega)]
      exact htg
    · intro hcontra
      apply hn
      rw [htg, hcontra]
    · rw [readUInt_append_xml endian f xml 2 _ (by omega)]
      exact readUInt_isSome 2 endian f _ (by omega)
  have hentries1 : readUInt 8 endian (f ++ xml ++ [0]) ifd0Offset
      = some n := by
    rw [readUInt_append_xml endian f xml 8 _ (by omega)]
    exact hentries
  simp only [saveCommentBody, if_true, hoffsz]
  rw [if_neg (show ¬((8 : Nat) ≠ 4 ∧ (8 : Nat) ≠ 8) by decide)]
  simp only [hifd, hentries1,
    scanEntries_finds_and_patches endian true ifd0Offset f.length
      xml.length (f ++ xml ++ [0]) n idx hidx htag1 htype1
      (by simp only [if_true]; exact hdesc1) hothers1]
  rfl

/-- The endian byte of the TIFF header marker selecting each byte order:
`'I' = 73` for `II` (little), `'M' = 77` for `MM` (big). -/
def endianByte (endian : EndianType) : Nat :=
  match endian with
  | .little => 73
  | .big => 77

/-- With a valid endian marker and version, `saveComment` reduces to the
body for the corresponding byte order and offset width. -/
theorem saveComment_dispatch (endian : EndianType) (bigOffsets : Bool)
    (f xml : List Nat)
    (hend0 : f[0]? = some (endianByte endian))
    (hend1 : f[1]? = some (endianByte endian))
    (hver : readUInt 2 endian f 2 = some (if bigOffsets then 43 else 42)) :
    saveComment f xml = saveCommentBody endian bigOffsets f xml := by
  cases endian with
  | little =>
    simp only [endianByte] at hend0 hend1
    cases bigOffsets with
    | false =>
      simp only [Bool.false_eq_true, if_false] at hver
      simp [saveComment, hend0, hend1, saveCommentVersioned, hver]
    | true =>
      simp only [if_true] at hver
      simp [saveComment, hend0, hend1, saveCommentVersioned, hver]
  | big =>
    simp only [endianByte] at hend0 hend1
    cases bigOffsets with
    | false =>
      simp only [Bool.false_eq_true, if_false] at hver
      simp [saveComment, hend0, hend1, saveCommentVersioned, hver]
    | true =>
      simp only [if_true] at hver
      simp [saveComment, hend0, hend1, saveCommentVersioned, hver]

/-- Every entry of the first IFD lies inside the original file when the
whole entry table does. -/
theorem tagOffset_entry_bound (bigOffsets : Bool) (ifd0Offset n j L : Nat)
    (hj : j < n)
    (hbound : ifd0Offset + (if bigOffsets then 8 else 2)
      + n * (if bigOffsets then 20 else 12) ≤ L) :
    tagOffset bigOffsets ifd0Offset j + (if bigOffsets then 20 else 12)
      ≤ L := by
  cases bigOffsets <;> simp [tagOffset] at hbound ⊢ <;> omega

/-- C1: on every well-formed output file (valid endian marker, version, and
BigTIFF offset size 8; first-IFD entry table inside the file; exactly one
`ImageDescription` entry, of type ASCII with the placeholder count
`strlen("OME-TIFF") + 1`), `saveComment` succeeds and patches the entry in
place: the XML blob followed by a single NUL byte is appended at the old
end of file, the entry's count field (offset +4) is overwritten with
`len(xml) + 1` and its offset field (+8 classic as a 32-bit field, +12
BigTIFF as a 64-bit field) with the blob's offset, while the entry's tag
and ASCII type are untouched. -/
theorem saveComment_patches_ImageDescription
    (endian : EndianType) (bigOffsets : Bool) (f xml : List Nat)
    (ifd0Offset n idx : Nat)
    (hend0 : f[0]? = some (endianByte endian))
    (hend1 : f[1]? = some (endianByte endian))
    (hver : readUInt 2 endian f 2 = some (if bigOffsets then 43 else 42))
    (hoffsz : bigOffsets = true → readUInt 2 endian f 4 = some 8)
    (hifd : (if bigOffsets then readUInt 8 endian f 8
             else readUInt 4 endian f 4) = some ifd0Offset)
    (hbound : ifd0Offset + (if bigOffsets then 8 else 2)
        + n * (if bigOffsets then 20 else 12) ≤ f.length)
    (hentries : (if bigOffsets then readUInt 8 endian f ifd0Offset
               else readUInt 2 endian f ifd0Offset) = some n)
    (hidx : idx < n)
    (htag : readUInt 2 endian f (tagOffset bigOffsets ifd0Offset idx)
        = some TIFFTAG_IMAGEDESCRIPTION)
    (htype : readUInt 2 endian f (tagOffset bigOffsets ifd0Offset idx + 2)
        = some TIFF_ASCII)
    (hdesc : (if bigOffsets then
          readUInt 8 endian f (tagOffset bigOffsets ifd0Offset idx + 4)
        else readUInt 4 endian f (tagOffset bigOffsets ifd0Offset idx + 4))
        = some (default_description.length + 1))
    (hothers : ∀ j, j < n → j ≠ idx →
      (readUInt 2 endian f (tagOffset bigOffsets ifd0Offset j)).isSome ∧
      readUInt 2 endian f (tagOffset bigOffsets ifd0Offset j)
        ≠ some TIFFTAG_IMAGEDESCRIPTION)
    (hxml : xml.length + 1 < 256 ^ (if bigOffsets then 8 else 4))
    (hflen : f.length < 256 ^ (if bigOffsets then 8 else 4)) :
    ∃ patched, saveComment f xml = .ok patched ∧
      patched.length = f.length + xml.length + 1 ∧
      (∀ k, k < xml.length → patched[f.length + k]? = xml[k]?) ∧
      patched[f.length + xml.length]? = some 0 ∧
      readUInt 2 endian patched (tagOffset bigOffsets ifd0Offset idx)
        = some TIFFTAG_IMAGEDESCRIPTION ∧
      readUInt 2 endian patched (tagOffset bigOffsets ifd0Offset idx + 2)
        = some TIFF_ASCII ∧
      (if bigOffsets then
          readUInt 8 endian patched
            (tagOffset bigOffsets ifd0Offset idx + 4)
        else
          readUInt 4 endian patched
            (tagOffset bigOffsets ifd0Offset idx + 4))
        = some (xml.length + 1) ∧
      (if bigOffsets then
          readUInt 8 endian patched
            (tagOffset bigOffsets ifd0Offset idx + 12)
        else
          readUInt 4 endian patched
            (tagOffset bigOffsets ifd0Offset idx + 8))
        = some f.length := by
  have hbody : saveCommentBody endian bigOffsets f xml
      = .ok (patchEntry endian bigOffsets
          (tagOffset bigOffsets ifd0Offset idx) f.length xml.length
          (f ++ xml ++ [0])) := by
    cases bigOffsets with
    | false =>
      simp only [Bool.false_eq_true, if_false] at hifd hbound hentries hdesc
      exact saveCommentBody_classic endian f xml ifd0Offset n idx hifd
        hbound hentries hidx htag htype hdesc hothers
    | true =>
      simp only [if_true] at hifd hbound hentries hdesc
      exact saveCommentBody_big endian f xml ifd0Offset n idx (hoffsz rfl)
        hifd hbound hentries hidx htag htype hdesc hothers
  have hsc := saveComment_dispatch endian bigOffsets f xml hend0 hend1 hver
  have htle : tagOffset bigOffsets ifd0Offset idx
      + (if bigOffsets then 20 else 12) ≤ f.length :=
    tagOffset_entry_bound bigOffsets ifd0Offset n idx f.length hidx hbound
  have he12 : 12 ≤ (if bigOffsets then 20 else 12) := by
    cases bigOffsets <;> simp
  have hf1len : (f ++ xml ++ [0]).length = f.length + xml.length + 1 := by
    simp
    omega
  refine ⟨_, hsc.trans hbody, ?_, ?_, ?_, ?_, ?_, ?_, ?_⟩
  · rw [patchEntry_length, hf1len]
  · intro k hk
    rw [getElem?_patchEntry_past endian bigOffsets _ f.length xml.length _
        (f.length + k) (by omega)]
    rw [List.getElem?_append_left
        (show f.length + k < (f ++ xml).length by
          rw [List.length_append]; omega),
      List.getElem?_append_right (show f.length ≤ f.length + k by omega)]
    have hix : f.length + k - f.length = k := by omega
    rw [hix]
  · rw [getElem?_patchEntry_past endian bigOffsets _ f.length xml.length _
        (f.length + xml.length) (by omega)]
    rw [List.getElem?_append_right
        (show (f ++ xml).length ≤ f.length + xml.length by
          rw [List.length_append])]
    have hix : f.length + xml.length - (f ++ xml).length = 0 := by
      rw [List.length_append]; omega
    rw [hix]
    rfl
  · rw [readUInt_patchEntry_before endian bigOffsets _ f.length xml.length _
        2 (tagOffset bigOffsets ifd0Offset idx) (by omega),
      readUInt_append_xml endian f xml 2 _ (by omega)]
    exact htag
  · rw [readUInt_patchEntry_before endian bigOffsets _ f.length xml.length _
        2 (tagOffset bigOffsets ifd0Offset idx + 2) (by omega),
      readUInt_append_xml endian f xml 2 _ (by omega)]
    exact htype
  · rw [readUInt_patchEntry_count endian bigOffsets _ f.length xml.length _
        (by rw [hf1len]; omega)]
    rw [Nat.mod_eq_of_lt hxml]
  · rw [readUInt_patchEntry_descOffset endian bigOffsets _ f.length
        xml.length _ (by rw [hf1len]; omega)]
    rw [Nat.mod_eq_of_lt hflen]

/-- C1 witness: a 22-byte little-endian classic TIFF whose single
directory entry is the ASCII `ImageDescription` placeholder, patched with
a one-byte XML `<`. -/
theorem saveComment_patches_ImageDescription_witness :
    ∃ patched,
      saveComment
          [73, 73, 42, 0, 8, 0, 0, 0, 1, 0, 14, 1, 2, 0, 9, 0, 0, 0,
            26, 0, 0, 0] [60]
        = .ok patched ∧
      patched.length
        = (([73, 73, 42, 0, 8, 0, 0, 0, 1, 0, 14, 1, 2, 0, 9, 0, 0, 0,
            26, 0, 0, 0] : List Nat)).length + ([60] : List Nat).length + 1 ∧
      (∀ k, k < ([60] : List Nat).length →
        patched[(([73, 73, 42, 0, 8, 0, 0, 0, 1, 0, 14, 1, 2, 0, 9, 0, 0, 0,
            26, 0, 0, 0] : List Nat)).length + k]? = ([60] : List Nat)[k]?) ∧
      patched[(([73, 73, 42, 0, 8, 0, 0, 0, 1, 0, 14, 1, 2, 0, 9, 0, 0, 0,
            26, 0, 0, 0] : List Nat)).length + ([60] : List Nat).length]?
        = some 0 ∧
      readUInt 2 .little patched (tagOffset false 8 0)
        = some TIFFTAG_IMAGEDESCRIPTION ∧
      readUInt 2 .little patched (tagOffset false 8 0 + 2)
        = some TIFF_ASCII ∧
      (if (false : Bool) then
          readUInt 8 .little patched (tagOffset false 8 0 + 4)
        else
          readUInt 4 .little patched (tagOffset false 8 0 + 4))
        = some (([60] : List Nat).length + 1) ∧
      (if (false : Bool) then
          readUInt 8 .little patched (tagOffset false 8 0 + 12)
        else
          readUInt 4 .little patched (tagOffset false 8 0 + 8))
        = some (([73, 73, 42, 0, 8, 0, 0, 0, 1, 0, 14, 1, 2, 0, 9, 0, 0, 0,
            26, 0, 0, 0] : List Nat)).length :=
  saveComment_patches_ImageDescription .little false
    [73, 73, 42, 0, 8, 0, 0, 0, 1, 0, 14, 1, 2, 0, 9, 0, 0, 0, 26, 0, 0, 0]
    [60] 8 1 0 rfl rfl rfl (fun h => nomatch h) rfl (by decide) rfl
    (by decide) rfl rfl rfl (fun j hj hne => absurd (by omega) hne)
    (by decide) (by decide)

end OmeFiles
